import Mathlib

/-!
# nirvana-goclient: response model and client (package nirvana)

A shallow embedding of the response decoding layer of the client
(model.go): the response envelope with its two queries (ResultError,
AuthToken), the scalar coercions (strInt64, strUnixTime, parseYYYMMDD,
parseBool) and the per-entity decoders (User.UnmarshalJSON,
Tag.UnmarshalJSON, Task.UnmarshalJSON); and of the two methods of the client
that consume a response (client.go): do and Authenticate.

Conventions of the embedding:
* a Go string is a Lean String (the decoder of encoding/json only produces
  valid UTF-8), Go's builtin len on a string is the byte count;
* int64 values are integers, with explicit wrap-around where Go's
  arithmetic can overflow;
* a method with a pointer receiver is a function from the receiver's old
  value to its new value, paired with the returned error;
* an index expression evaluates in Except GoPanic, so that an index out of
  range is an observable outcome of the model;
* log.Printf writes a diagnostic and has no effect on any returned value: it
  is left out, the field name parameter that only feeds it is kept.
-/

namespace Nirvana

/-! ## Go runtime pieces -/

/-- Run-time panics of the Go code that the model can observe. -/
inductive GoPanic where
  | indexOutOfRange
  deriving DecidableEq, Repr

instance instDecidableEqExcept {ε α : Type} [DecidableEq ε] [DecidableEq α] :
    DecidableEq (Except ε α) := fun a b =>
  match a, b with
  | .ok x, .ok y => if h : x = y then isTrue (by rw [h]) else isFalse (fun e => h (by cases e; rfl))
  | .error x, .error y =>
    if h : x = y then isTrue (by rw [h]) else isFalse (fun e => h (by cases e; rfl))
  | .ok _, .error _ => isFalse (fun e => by cases e)
  | .error _, .ok _ => isFalse (fun e => by cases e)

/-- Go's builtin len on a string: the number of bytes. -/
def len (s : String) : Nat := s.utf8ByteSize

/-- Go's index expression xs[i] on a slice: panics when i is out of range. -/
def index {α : Type} (xs : List α) (i : Nat) : Except GoPanic α :=
  match xs.get? i with
  | some x => .ok x
  | none => .error .indexOutOfRange

/-- Go's error interface as far as this package uses it: nil, or an error
carrying its text. -/
abbrev GoError := Option String

/-- The verb %d of package fmt on an int64: decimal digits, with a leading
minus sign for a negative value. -/
def fmtD (n : Int) : String :=
  if n < 0 then "-" ++ Nat.repr n.natAbs else Nat.repr n.toNat

/-! ## Tag types, task types and states (model.go:11-66) -/

def Area : String := "1"
def Context : String := "2"
def Contact : String := "3"

def Action : String := "0"
def ActionProject : String := "1"
def Reference : String := "2"
def ReferenceProject : String := "3"

def StateNext : String := "1"
def StateWaiting : String := "2"
def StateScheduled : String := "3"
def StateSomeday : String := "4"
def StateLater : String := "5"
def StateTrashed : String := "6"
def StateLogged : String := "7"
def StateDeleted : String := "8"
def StateRecurring : String := "9"
def StateActiveProject : String := "11"

/-! ## Package time, as far as model.go uses it

A time.Time without monotonic reading is the triple (wall, ext, loc): wall
holds the nanoseconds, ext the seconds since January 1 of year 1, loc the
location, where the nil location means UTC. -/

/-- Two's-complement wrap-around of an int64 result. -/
def wrapInt64 (x : Int) : Int := (x + 9223372036854775808) % 18446744073709551616 - 9223372036854775808

/-- Two's-complement wrap-around of a uint64 result. -/
def wrapUint64 (x : Int) : Nat := (x % 18446744073709551616).toNat

/-- The locations a time.Time of this package can carry: nil (UTC) after
time.Parse, and time.Local after time.Unix. -/
inductive Location where
  | UTC
  | Local
  deriving DecidableEq, Repr

/-- The time.Time struct. -/
structure Time where
  wall : Nat
  ext : Int
  loc : Location
  deriving DecidableEq, Repr

/-- The zero value of time.Time: January 1, year 1, 00:00:00 UTC. -/
def Time.zero : Time := { wall := 0, ext := 0, loc := .UTC }

def secondsPerMinute : Nat := 60
def secondsPerHour : Nat := 60 * secondsPerMinute
def secondsPerDay : Nat := 24 * secondsPerHour
def daysPer400Years : Nat := 365 * 400 + 97
def daysPer100Years : Nat := 365 * 100 + 24
def daysPer4Years : Nat := 365 * 4 + 1

def absoluteZeroYear : Int := -292277022399
def unixToInternal : Int := (1969 * 365 + 1969 / 4 - 1969 / 100 + 1969 / 400) * 86400
def internalToUnix : Int := -unixToInternal
def absoluteToInternal : Int := -9223371966579724800
def internalToAbsolute : Int := -absoluteToInternal

/-- The unexported time.unixTime. -/
def unixTime (sec : Int) (nsec : Nat) : Time :=
  { wall := nsec, ext := wrapInt64 (sec + unixToInternal), loc := .Local }

/-- Go's time.Unix(sec, nsec): the local Time of the given Unix time. -/
def time_Unix (sec : Int) (nsec : Int) : Time :=
  if nsec < 0 ∨ nsec ≥ 1000000000 then
    let n := Int.tdiv nsec 1000000000
    let sec1 := wrapInt64 (sec + n)
    let nsec1 := nsec - n * 1000000000
    if nsec1 < 0 then unixTime (wrapInt64 (sec1 - 1)) (nsec1 + 1000000000).toNat
    else unixTime sec1 nsec1.toNat
  else unixTime sec nsec.toNat

/-- The method Time.Unix: seconds elapsed since January 1, 1970 UTC. -/
def Time.Unix (t : Time) : Int := wrapInt64 (t.ext + internalToUnix)

/-- The method Time.Nanosecond. -/
def Time.Nanosecond (t : Time) : Nat := t.wall % 1073741824

/-- The method Time.Equal: the same instant, whatever the location. -/
def Time.Equal (t u : Time) : Bool :=
  t.ext == u.ext && t.Nanosecond == u.Nanosecond

/-- The method Time.abs for a Time whose location is UTC: seconds since the
absolute epoch (for time.Local the offset of the local zone would be added). -/
def Time.abs (t : Time) : Nat := wrapUint64 (t.Unix + (unixToInternal + internalToAbsolute))

/-- The table time.daysBefore: days of a non-leap year before month m+1
begins, with a last entry for the whole year. -/
def daysBefore : List Nat := [0, 31, 59, 90, 120, 151, 181, 212, 243, 273, 304, 334, 365]

/-- The unexported time.isLeap; the operator % of Go truncates toward zero. -/
def isLeap (year : Int) : Bool :=
  year.tmod 4 == 0 && (year.tmod 100 != 0 || year.tmod 400 == 0)

/-- The unexported time.daysIn. -/
def daysIn (m : Int) (year : Int) : Int :=
  if m == 2 && isLeap year then 29
  else (daysBefore.getD m.toNat 0 : Int) - (daysBefore.getD (m - 1).toNat 0 : Int)

/-- The unexported time.norm: (hi, lo) with lo brought into [0, base). -/
def norm (hi lo base : Int) : Int × Int :=
  let r1 : Int × Int :=
    if lo < 0 then
      let n := Int.tdiv (-lo - 1) base + 1
      (hi - n, lo + n * base)
    else (hi, lo)
  if r1.2 ≥ base then
    let n := Int.tdiv r1.2 base
    (r1.1 + n, r1.2 - n * base)
  else r1

/-- The unexported time.daysSinceEpoch, on uint64. -/
def daysSinceEpoch (year : Int) : Nat :=
  let y := wrapUint64 (year - absoluteZeroYear)
  let n := y / 400
  let y := y - 400 * n
  let d := daysPer400Years * n
  let n := y / 100
  let y := y - 100 * n
  let d := d + daysPer100Years * n
  let n := y / 4
  let y := y - 4 * n
  let d := d + daysPer4Years * n
  let n := y
  d + 365 * n

/-- Go's time.Date with the location UTC, where the zone offset is 0 and
setLoc stores the nil location. -/
def Date (year month day hour min sec nsec : Int) : Time :=
  let ym := norm year (month - 1) 12
  let year := ym.1
  let month := ym.2 + 1
  let sn := norm sec nsec 1000000000
  let ms := norm min sn.1 60
  let hm := norm hour ms.1 60
  let dh := norm day hm.1 24
  let nsec := sn.2
  let sec := ms.2
  let min := hm.2
  let hour := dh.2
  let day := dh.1
  let d := daysSinceEpoch year
  let d := wrapUint64 (d + daysBefore.getD (month - 1).toNat 0)
  let d := if isLeap year && month ≥ 3 then wrapUint64 (d + 1) else d
  let d := wrapUint64 (d + wrapUint64 (day - 1))
  let abs := wrapUint64 (d * secondsPerDay)
  let abs := wrapUint64 (abs + wrapUint64 (hour * secondsPerHour + min * secondsPerMinute + sec))
  let unix := wrapInt64 (wrapInt64 abs + (absoluteToInternal + internalToUnix))
  { unixTime unix nsec.toNat with loc := .UTC }

/-- The unexported time.absDate with full = true: year, month, day of the
month and day of the year of an absolute time. -/
def absDate (abs : Nat) : Int × Nat × Nat × Nat :=
  let d := abs / secondsPerDay
  let n := d / daysPer400Years
  let y := 400 * n
  let d := d - daysPer400Years * n
  let n := d / daysPer100Years
  let n := n - n >>> 2
  let y := y + 100 * n
  let d := d - daysPer100Years * n
  let n := d / daysPer4Years
  let y := y + 4 * n
  let d := d - daysPer4Years * n
  let n := d / 365
  let n := n - n >>> 2
  let y := y + n
  let d := d - 365 * n
  let year : Int := wrapInt64 (wrapInt64 y + absoluteZeroYear)
  let yday := d
  if isLeap year && yday == 31 + 29 - 1 then (year, 2, 29, yday)
  else
    let day := if isLeap year && yday > 31 + 29 - 1 then yday - 1 else yday
    let month := day / 31
    let e := daysBefore.getD (month + 1) 0
    if day ≥ e then (year, month + 1 + 1, day - e + 1, yday)
    else (year, month + 1, day - daysBefore.getD month 0 + 1, yday)

/-- The method Time.Date of a Time in UTC: year, month and day. -/
def Time.Date (t : Time) : Int × Nat × Nat :=
  let r := absDate t.abs
  (r.1, r.2.1, r.2.2.1)

/-- The method Time.Clock of a Time in UTC: hour, minute and second. -/
def Time.Clock (t : Time) : Nat × Nat × Nat :=
  let sec := t.abs % secondsPerDay
  let hour := sec / secondsPerHour
  let sec := sec - hour * secondsPerHour
  let min := sec / secondsPerMinute
  let sec := sec - min * secondsPerMinute
  (hour, min, sec)

/-! ### time.Parse for the layout "20060102"

The layout splits into the chunks stdLongYear, stdZeroMonth and stdZeroDay.
Go walks the bytes of the value, the model its characters: a byte of a
character outside ASCII is no digit, so both walks fail on the same values
and agree on every value they accept. -/

/-- The error of time.Parse: which check rejected the value. -/
inductive ParseError where
  | bad
  | monthOutOfRange
  | extraText
  | dayOutOfRange
  deriving DecidableEq, Repr

/-- The unexported time.isDigit: whether s[i] is in range and a decimal digit. -/
def isDigit (s : List Char) (i : Nat) : Bool :=
  match s.get? i with
  | some c => decide ('0' ≤ c) && decide (c ≤ '9')
  | none => false

/-- The unexported time.leadingInt: the leading digits of s as a number and
the rest of s; none is errLeadingInt. -/
def leadingInt (s : List Char) (x : Nat) : Option (Nat × List Char) :=
  match s with
  | [] => some (x, [])
  | c :: rest =>
    if c < '0' ∨ c > '9' then some (x, c :: rest)
    else if x > 9223372036854775808 / 10 then none
    else
      let x1 := x * 10 + c.toNat - '0'.toNat
      if x1 > 9223372036854775808 then none else leadingInt rest x1

/-- The unexported time.atoi; none is errAtoi. -/
def atoi (s : List Char) : Option Int :=
  let neg := decide (s.head? = some '-')
  let s1 := if s.head? = some '-' ∨ s.head? = some '+' then s.tail else s
  match leadingInt s1 0 with
  | none => none
  | some (q, rem) =>
    if rem.length > 0 then none
    else
      let x := wrapInt64 q
      some (if neg then wrapInt64 (-x) else x)

/-- The unexported time.getnum: a two-digit number at the start of s, or with
fixed = false a one-digit one; none is errBad. -/
def getnum (s : List Char) (fixed : Bool) : Option (Int × List Char) :=
  if !isDigit s 0 then none
  else if !isDigit s 1 then
    if fixed then none
    else some (((s.getD 0 '0').toNat - '0'.toNat : Nat), s.drop 1)
  else
    some ((((s.getD 0 '0').toNat - '0'.toNat : Nat) * 10 +
      ((s.getD 1 '0').toNat - '0'.toNat : Nat) : Nat), s.drop 2)

/-- Go's time.Parse("20060102", value): the Time in UTC, or the error. -/
def time_Parse (value : String) : Except ParseError Time :=
  let v0 := value.data
  if v0.length < 4 ∨ !isDigit v0 0 then .error .bad
  else
    match atoi (v0.take 4) with
    | none => .error .bad
    | some year =>
      match getnum (v0.drop 4) true with
      | none => .error .bad
      | some (month, v2) =>
        if month ≤ 0 ∨ 12 < month then .error .monthOutOfRange
        else
          match getnum v2 true with
          | none => .error .bad
          | some (day, v3) =>
            if v3.length ≠ 0 then .error .extraText
            else if day < 1 ∨ day > daysIn month year then .error .dayOutOfRange
            else .ok (Date year month day 0 0 0 0)

/-! ## Package strconv: ParseInt with base 10 and bit size 64

As for time.Parse the model walks characters where Go walks bytes: a byte
of a character outside ASCII takes the default branch of ParseUint, a
syntax error, as the character does here. -/

/-- The error kinds of strconv.NumError. -/
inductive NumError where
  | ErrSyntax
  | ErrRange
  deriving DecidableEq, Repr

def maxUint64 : Nat := 18446744073709551615

/-- The unexported strconv.lower on a byte. -/
def lower (c : Nat) : Nat := c ||| ('x'.toNat - 'X'.toNat)

/-- The loop of strconv.ParseUint(s, 10, 64) from the accumulator n on:
the value and the error. -/
def parseUintLoop (cs : List Char) (n : Nat) : Nat × Option NumError :=
  match cs with
  | [] => (n, none)
  | c :: rest =>
    let dOpt : Option Nat :=
      if '0' ≤ c ∧ c ≤ '9' then some (c.toNat - '0'.toNat)
      else if c.toNat < 128 ∧ 'a'.toNat ≤ lower c.toNat ∧ lower c.toNat ≤ 'z'.toNat then
        some (lower c.toNat - 'a'.toNat + 10)
      else none
    match dOpt with
    | none => (0, some .ErrSyntax)
    | some d =>
      if d ≥ 10 then (0, some .ErrSyntax)
      else if n ≥ maxUint64 / 10 + 1 then (maxUint64, some .ErrRange)
      else
        let n10 := wrapUint64 (n * 10)
        let n1 := wrapUint64 (n10 + d)
        if n1 < n10 ∨ n1 > maxUint64 then (maxUint64, some .ErrRange)
        else parseUintLoop rest n1

/-- Go's strconv.ParseUint(s, 10, 64). -/
def ParseUint (s : List Char) : Nat × Option NumError :=
  if s = [] then (0, some .ErrSyntax) else parseUintLoop s 0

/-- Go's strconv.ParseInt(s, 10, 64): the value and the error. -/
def ParseInt (s : String) : Int × Option NumError :=
  if s = "" then (0, some .ErrSyntax)
  else
    let cs := s.data
    let neg := decide (cs.head? = some '-')
    let cs1 := if cs.head? = some '+' ∨ cs.head? = some '-' then cs.tail else cs
    let r := ParseUint cs1
    if r.2 ≠ none ∧ r.2 ≠ some .ErrRange then (0, r.2)
    else
      let cutoff : Nat := 9223372036854775808
      if !neg ∧ r.1 ≥ cutoff then ((cutoff : Int) - 1, some .ErrRange)
      else if neg ∧ r.1 > cutoff then (-(cutoff : Int), some .ErrRange)
      else
        let n := wrapInt64 r.1
        (if neg then wrapInt64 (-n) else n, none)

/-! ## Package encoding/json, as far as the decoders use it

The decoders call json.Unmarshal on a struct whose fields are all strings.
The model starts from the parsed document: none stands for bytes that are
no JSON document. A member of an object is stored into the field whose tag
matches its key, first exactly, then under case folding; a string is
stored, null leaves the field as it is, any other value is an
UnmarshalTypeError (reported once the object has been read); the last
member of a field wins; members of no field are skipped. -/

/-- A parsed JSON document. -/
inductive JSON where
  | null
  | bool (b : Bool)
  | number (literal : String)
  | string (s : String)
  | array (elems : List JSON)
  | object (members : List (String × JSON))

/-- The errors of json.Unmarshal. -/
inductive JSONError where
  | SyntaxError
  | UnmarshalTypeError
  deriving DecidableEq, Repr

/-- Case folding of a key's character: the smallest character of its fold
orbit as far as it can meet an ASCII letter, that is upper case for a to z,
S for the long s (U+017F) and K for the Kelvin sign (U+212A). -/
def foldRune (c : Char) : Char :=
  if 'a' ≤ c ∧ c ≤ 'z' then Char.ofNat (c.toNat - ('a'.toNat - 'A'.toNat))
  else if c = Char.ofNat 0x017F then 'S'
  else if c = Char.ofNat 0x212A then 'K'
  else c

/-- The folded form of a key: each character folded. -/
def foldName (s : String) : String := ⟨s.data.map foldRune⟩

/-- Whether the key of a member selects the field with the given tag. -/
def keyMatches (key tag : String) : Bool :=
  key == tag || foldName key == foldName tag

/-- The string a field with the given tag holds after the members of an
object have been stored into a zero struct. -/
def fieldString (members : List (String × JSON)) (tag : String) : String :=
  members.foldl (fun acc kv =>
    if keyMatches kv.1 tag then
      match kv.2 with
      | .string s => s
      | _ => acc
    else acc) ""

/-- Whether a member of one of the fields holds a value a string field
cannot take. -/
def typeMismatch (tags : List String) (members : List (String × JSON)) : Bool :=
  members.any fun kv =>
    tags.any (keyMatches kv.1) &&
      match kv.2 with
      | .string _ => false
      | .null => false
      | _ => true

/-! ## JSON objects (model.go:68-250) -/

structure APIRequest where
  RequestID : String
  deriving DecidableEq, Repr

structure APIError where
  Code : Int
  Message : String
  Request : APIRequest
  deriving DecidableEq, Repr

structure APIAuth where
  Token : String
  deriving DecidableEq, Repr

structure UserJSON where
  ID : String
  deriving DecidableEq, Repr

structure User where
  ID : String
  deriving DecidableEq, Repr

structure TagJSON where
  Key : String
  Type_ : String
  Email : String
  Color : String
  Meta : String
  Deleted : String
  deriving DecidableEq, Repr

structure Tag where
  Key : String
  Type_ : String
  Email : String
  Color : String
  Meta : String
  Deleted : Time
  IsDeleted : Bool
  deriving DecidableEq, Repr

structure TaskJSON where
  ID : String
  Type_ : String
  Sequential : String
  State : String
  ParentID : String
  Seq : String
  Seqt : String
  Seqp : String
  Name : String
  Tags : String
  Etime : String
  Energy : String
  Waitingfor : String
  Startdate : String
  Duedate : String
  Recurring : String
  Note : String
  Completed : String
  Cancelled : String
  Deleted : String
  Updated : String
  deriving DecidableEq, Repr

structure Task where
  ID : String
  Type_ : String
  Sequential : Bool
  State : String
  ParentID : String
  Seq : Int
  Seqt : Time
  Seqp : Int
  Name : String
  Tags : String
  Etime : Int
  Energy : Int
  Waitingfor : String
  Startdate : Time
  Duedate : Time
  Recurring : String
  Note : String
  Completed : Time
  Cancelled : Bool
  Deleted : Time
  Updated : Time
  IsDeleted : Bool
  IsCompleted : Bool
  deriving DecidableEq, Repr

structure APIResult where
  Error : APIError
  Auth : APIAuth
  User : User
  Tag : Tag
  Task : Task
  deriving DecidableEq, Repr

structure NirvanaResponse where
  Request : APIRequest
  Results : List APIResult
  deriving DecidableEq, Repr

/-! Zero values of the structs, as a Go var declaration gives them. -/

def APIRequest.zero : APIRequest := { RequestID := "" }
def APIError.zero : APIError := { Code := 0, Message := "", Request := APIRequest.zero }
def APIAuth.zero : APIAuth := { Token := "" }
def UserJSON.zero : UserJSON := { ID := "" }
def User.zero : User := { ID := "" }
def TagJSON.zero : TagJSON :=
  { Key := "", Type_ := "", Email := "", Color := "", Meta := "", Deleted := "" }
def Tag.zero : Tag :=
  { Key := "", Type_ := "", Email := "", Color := "", Meta := "", Deleted := Time.zero,
    IsDeleted := false }
def TaskJSON.zero : TaskJSON :=
  { ID := "", Type_ := "", Sequential := "", State := "", ParentID := "", Seq := "", Seqt := "",
    Seqp := "", Name := "", Tags := "", Etime := "", Energy := "", Waitingfor := "",
    Startdate := "", Duedate := "", Recurring := "", Note := "", Completed := "",
    Cancelled := "", Deleted := "", Updated := "" }
def Task.zero : Task :=
  { ID := "", Type_ := "", Sequential := false, State := "", ParentID := "", Seq := 0,
    Seqt := Time.zero, Seqp := 0, Name := "", Tags := "", Etime := 0, Energy := 0,
    Waitingfor := "", Startdate := Time.zero, Duedate := Time.zero, Recurring := "",
    Note := "", Completed := Time.zero, Cancelled := false, Deleted := Time.zero,
    Updated := Time.zero, IsDeleted := false, IsCompleted := false }
def APIResult.zero : APIResult :=
  { Error := APIError.zero, Auth := APIAuth.zero, User := User.zero, Tag := Tag.zero,
    Task := Task.zero }

/-! ## Scalar coercions (model.go:306-343) -/

def strInt64 (val : String) (defaultVal : Int) (name : String) : Int :=
  if val = "" then defaultVal
  else
    let r := ParseInt val
    if r.2 ≠ none then defaultVal else r.1

def strUnixTime (val : String) (defaultVal : Int) (name : String) : Time :=
  time_Unix (strInt64 val defaultVal name) 0

def nirvanaDateLayout : String := "20060102"

def noDate : Time := time_Unix 0 0

def parseYYYMMDD (val : String) (name : String) : Time × Bool :=
  if val = "" then (noDate, false)
  else
    match time_Parse val with
    | .error _ => (noDate, true)
    | .ok ret => (ret, true)

def parseBool (val : String) : Bool :=
  if val = "" ∨ val = "0" then false else true

/-! ## The decoders (model.go:113-288)

A decoder maps the receiver's old value and the data to the receiver's new
value and the returned error. -/

def tagJSONTags : List String := ["key", "type", "email", "color", "meta", "deleted"]

def taskJSONTags : List String :=
  ["id", "type", "ps", "state", "parentid", "seq", "seqt", "seqp", "name", "tags", "etime",
   "energy", "waitingfor", "startdate", "duedate", "recurring", "note", "completed",
   "cancelled", "deleted", "updated"]

def userJSONTags : List String := ["id"]

/-- The UserJSON the members of an object are stored into, from the zero
value on, each field under its json tag. -/
def UserJSON.ofMembers (ms : List (String × JSON)) : UserJSON :=
  { ID := fieldString ms "id" }

/-- The TagJSON the members of an object are stored into. -/
def TagJSON.ofMembers (ms : List (String × JSON)) : TagJSON :=
  { Key := fieldString ms "key", Type_ := fieldString ms "type",
    Email := fieldString ms "email", Color := fieldString ms "color",
    Meta := fieldString ms "meta", Deleted := fieldString ms "deleted" }

/-- The TaskJSON the members of an object are stored into. -/
def TaskJSON.ofMembers (ms : List (String × JSON)) : TaskJSON :=
  { ID := fieldString ms "id", Type_ := fieldString ms "type",
    Sequential := fieldString ms "ps", State := fieldString ms "state",
    ParentID := fieldString ms "parentid", Seq := fieldString ms "seq",
    Seqt := fieldString ms "seqt", Seqp := fieldString ms "seqp",
    Name := fieldString ms "name", Tags := fieldString ms "tags",
    Etime := fieldString ms "etime", Energy := fieldString ms "energy",
    Waitingfor := fieldString ms "waitingfor", Startdate := fieldString ms "startdate",
    Duedate := fieldString ms "duedate", Recurring := fieldString ms "recurring",
    Note := fieldString ms "note", Completed := fieldString ms "completed",
    Cancelled := fieldString ms "cancelled", Deleted := fieldString ms "deleted",
    Updated := fieldString ms "updated" }

/-- The call json.Unmarshal(data, &res) on a zero TagJSON. -/
def unmarshalTagJSON (data : Option JSON) : Except JSONError TagJSON :=
  match data with
  | none => .error .SyntaxError
  | some .null => .ok TagJSON.zero
  | some (.object ms) =>
    if typeMismatch tagJSONTags ms then .error .UnmarshalTypeError
    else .ok (TagJSON.ofMembers ms)
  | some _ => .error .UnmarshalTypeError

/-- The call json.Unmarshal(data, &res) on a zero TaskJSON. -/
def unmarshalTaskJSON (data : Option JSON) : Except JSONError TaskJSON :=
  match data with
  | none => .error .SyntaxError
  | some .null => .ok TaskJSON.zero
  | some (.object ms) =>
    if typeMismatch taskJSONTags ms then .error .UnmarshalTypeError
    else .ok (TaskJSON.ofMembers ms)
  | some _ => .error .UnmarshalTypeError

/-- The call json.Unmarshal(data, &res) on a zero UserJSON. -/
def unmarshalUserJSON (data : Option JSON) : Except JSONError UserJSON :=
  match data with
  | none => .error .SyntaxError
  | some .null => .ok UserJSON.zero
  | some (.object ms) =>
    if typeMismatch userJSONTags ms then .error .UnmarshalTypeError
    else .ok (UserJSON.ofMembers ms)
  | some _ => .error .UnmarshalTypeError

def User.UnmarshalJSON (user : User) (data : Option JSON) : User × Option JSONError :=
  match unmarshalUserJSON data with
  | .error err => (user, some err)
  | .ok res =>
    let user : User := { user with ID := res.ID }
    (user, none)

def Tag.UnmarshalJSON (tag : Tag) (data : Option JSON) : Tag × Option JSONError :=
  match unmarshalTagJSON data with
  | .error err => (tag, some err)
  | .ok res =>
    let tag : Tag := { tag with Key := res.Key }
    let tag : Tag := { tag with Type_ := res.Type_ }
    let tag : Tag := { tag with Email := res.Email }
    let tag : Tag := { tag with Color := res.Color }
    let tag : Tag := { tag with Meta := res.Meta }
    let tag : Tag := { tag with Deleted := strUnixTime res.Deleted 0 "tag.deleted" }
    let tag : Tag := { tag with IsDeleted := res.Deleted != "0" }
    let tag : Tag := if res.Type_ == "0" then { tag with Type_ := Context } else tag
    (tag, none)

def Task.UnmarshalJSON (task : Task) (data : Option JSON) : Task × Option JSONError :=
  match unmarshalTaskJSON data with
  | .error err => (task, some err)
  | .ok res =>
    let task : Task := { task with ID := res.ID }
    let task : Task := { task with Type_ := res.Type_ }
    let task : Task := { task with Sequential := parseBool res.Sequential }
    let task : Task := { task with State := res.State }
    let task : Task := { task with ParentID := res.ParentID }
    let task : Task := { task with Seq := strInt64 res.Seq 0 "task.seq" }
    let task : Task := { task with Seqt := strUnixTime res.Seqt 0 "task.seqt" }
    let task : Task := { task with Seqp := strInt64 res.Seqp 0 "task.seqp" }
    let task : Task := { task with Name := res.Name }
    let task : Task := { task with Tags := res.Tags }
    let task : Task := { task with Etime := strInt64 res.Etime 0 "task.etime" }
    let task : Task := { task with Energy := strInt64 res.Energy 0 "task.energy" }
    let task : Task := { task with Waitingfor := res.Waitingfor }
    let sd := parseYYYMMDD res.Startdate "task.startdate"
    let task : Task := if sd.2 then { task with Startdate := sd.1 } else task
    let dd := parseYYYMMDD res.Duedate "task.duedate"
    let task : Task := if dd.2 then { task with Duedate := dd.1 } else task
    let task : Task := { task with Recurring := res.Recurring }
    let task : Task := { task with Note := res.Note }
    let task : Task := { task with Completed := strUnixTime res.Completed 0 "task.completed" }
    let task : Task := { task with IsCompleted := res.Completed != "0" }
    let task : Task := { task with Cancelled := parseBool res.Cancelled }
    let task : Task := { task with Deleted := strUnixTime res.Deleted 0 "task.deleted" }
    let task : Task := { task with Updated := strUnixTime res.Updated 0 "task.updated" }
    let task : Task := { task with IsDeleted := res.Deleted != "0" }
    (task, none)

/-! ## The two queries of the envelope (model.go:290-304) -/

/-- The call fmt.Errorf("Nirvana response error: %d %s", code, message). -/
def responseErrorf (code : Int) (message : String) : GoError :=
  some ("Nirvana response error: " ++ fmtD code ++ " " ++ message)

/-- ResultError returns response error or nil. The operator && evaluates
its right operand only when the left one holds. -/
def NirvanaResponse.ResultError (p : NirvanaResponse) : Except GoPanic GoError :=
  if p.Results.length > 0 then
    (index p.Results 0).bind fun r =>
      if r.Error.Code > 0 then
        (index p.Results 0).bind fun r1 =>
          (index p.Results 0).bind fun r2 =>
            .ok (responseErrorf r1.Error.Code r2.Error.Message)
      else .ok none
  else .ok none

/-- AuthToken returns authentication token or nil. -/
def NirvanaResponse.AuthToken (p : NirvanaResponse) : Except GoPanic (String × Bool) :=
  if p.Results.length > 0 then
    (index p.Results 0).bind fun r =>
      if len r.Auth.Token > 0 then
        (index p.Results 0).bind fun r1 => .ok (r1.Auth.Token, true)
      else .ok ("", false)
  else .ok ("", false)


/-! ## Decoding the envelope

The envelope is decoded by encoding/json itself, along the json tags of
NirvanaResponse, APIResult, APIError, APIAuth and APIRequest. A value is
decoded into the field as it stands: null leaves a struct, a string or a
number as it is, an object stores its members one after the other. The
fields User, Tag and Task implement json.Unmarshaler, so their value, of
whatever kind, is handed to UnmarshalJSON. An UnmarshalTypeError and an
error of UnmarshalJSON both make json.Unmarshal return an error; every
caller of this package drops the decoded value then, and the model does
not keep it. -/

/-- A JSON value decoded into a string field. -/
def decodeString (cur : String) (v : JSON) : Except JSONError String :=
  match v with
  | .string s => .ok s
  | .null => .ok cur
  | _ => .error .UnmarshalTypeError

/-- A JSON value decoded into an int64 field: the literal of a number goes
through strconv.ParseInt. -/
def decodeInt64 (cur : Int) (v : JSON) : Except JSONError Int :=
  match v with
  | .number literal =>
    if (ParseInt literal).2 = none then .ok (ParseInt literal).1
    else .error .UnmarshalTypeError
  | .null => .ok cur
  | _ => .error .UnmarshalTypeError

/-- A JSON value decoded into an APIRequest. -/
def decodeAPIRequest (cur : APIRequest) (v : JSON) : Except JSONError APIRequest :=
  match v with
  | .null => .ok cur
  | .object ms =>
    ms.foldlM (fun acc kv =>
      if keyMatches kv.1 "requestid" then
        (decodeString acc.RequestID kv.2).map fun s => { acc with RequestID := s }
      else .ok acc) cur
  | _ => .error .UnmarshalTypeError

/-- A JSON value decoded into an APIError. -/
def decodeAPIError (cur : APIError) (v : JSON) : Except JSONError APIError :=
  match v with
  | .null => .ok cur
  | .object ms =>
    ms.foldlM (fun acc kv =>
      if keyMatches kv.1 "code" then
        (decodeInt64 acc.Code kv.2).map fun n => { acc with Code := n }
      else if keyMatches kv.1 "message" then
        (decodeString acc.Message kv.2).map fun s => { acc with Message := s }
      else if keyMatches kv.1 "request" then
        (decodeAPIRequest acc.Request kv.2).map fun r => { acc with Request := r }
      else .ok acc) cur
  | _ => .error .UnmarshalTypeError

/-- A JSON value decoded into an APIAuth. -/
def decodeAPIAuth (cur : APIAuth) (v : JSON) : Except JSONError APIAuth :=
  match v with
  | .null => .ok cur
  | .object ms =>
    ms.foldlM (fun acc kv =>
      if keyMatches kv.1 "token" then
        (decodeString acc.Token kv.2).map fun s => { acc with Token := s }
      else .ok acc) cur
  | _ => .error .UnmarshalTypeError

/-- The outcome of an UnmarshalJSON method as the decoder sees it. -/
def ofUnmarshaler {α : Type} (r : α × Option JSONError) : Except JSONError α :=
  match r.2 with
  | some err => .error err
  | none => .ok r.1

/-- One member of a result object stored into an APIResult. -/
def storeResultMember (acc : APIResult) (kv : String × JSON) : Except JSONError APIResult :=
  if keyMatches kv.1 "error" then
    (decodeAPIError acc.Error kv.2).map fun e => { acc with Error := e }
  else if keyMatches kv.1 "auth" then
    (decodeAPIAuth acc.Auth kv.2).map fun a => { acc with Auth := a }
  else if keyMatches kv.1 "user" then
    (ofUnmarshaler (User.UnmarshalJSON acc.User (some kv.2))).map fun u => { acc with User := u }
  else if keyMatches kv.1 "tag" then
    (ofUnmarshaler (Tag.UnmarshalJSON acc.Tag (some kv.2))).map fun t => { acc with Tag := t }
  else if keyMatches kv.1 "task" then
    (ofUnmarshaler (Task.UnmarshalJSON acc.Task (some kv.2))).map fun t => { acc with Task := t }
  else .ok acc

/-- A JSON value decoded into an APIResult. -/
def decodeAPIResult (cur : APIResult) (v : JSON) : Except JSONError APIResult :=
  match v with
  | .null => .ok cur
  | .object ms => ms.foldlM storeResultMember cur
  | _ => .error .UnmarshalTypeError

/-- The elements of a JSON array decoded into the elements of a slice from
index i on: an element is decoded into what the backing array holds at its
index, a zero APIResult beyond the backing array. -/
def decodeElems (store : List APIResult) (i : Nat) (elems : List JSON) :
    Except JSONError (List APIResult) :=
  match elems with
  | [] => .ok []
  | e :: rest =>
    match decodeAPIResult (store.getD i APIResult.zero) e with
    | .error err => .error err
    | .ok r =>
      match decodeElems store (i + 1) rest with
      | .error err => .error err
      | .ok rs => .ok (r :: rs)

/-- A JSON value decoded into the slice Results, whose backing array holds
store: the new slice and its backing array. A null and an empty array give
a slice without the old backing array. -/
def decodeResults (store : List APIResult) (v : JSON) :
    Except JSONError (List APIResult × List APIResult) :=
  match v with
  | .null => .ok ([], [])
  | .array [] => .ok ([], [])
  | .array elems =>
    (decodeElems store 0 elems).map fun rs => (rs, rs ++ store.drop rs.length)
  | _ => .error .UnmarshalTypeError

/-- One member of the envelope stored into a NirvanaResponse whose Results
has the backing array st.2. -/
def storeEnvelopeMember (st : NirvanaResponse × List APIResult) (kv : String × JSON) :
    Except JSONError (NirvanaResponse × List APIResult) :=
  if keyMatches kv.1 "request" then
    (decodeAPIRequest st.1.Request kv.2).map fun r => ({ st.1 with Request := r }, st.2)
  else if keyMatches kv.1 "results" then
    (decodeResults st.2 kv.2).map fun rs => ({ st.1 with Results := rs.1 }, rs.2)
  else .ok st

def NirvanaResponse.zero : NirvanaResponse := { Request := APIRequest.zero, Results := [] }

/-- The call json.Unmarshal(data, &response) on a zero NirvanaResponse, as
in NirvanaClient.do and in TestUnmarshall. -/
def unmarshalNirvanaResponse (data : Option JSON) : Except JSONError NirvanaResponse :=
  match data with
  | none => .error .SyntaxError
  | some .null => .ok NirvanaResponse.zero
  | some (.object ms) =>
    (ms.foldlM storeEnvelopeMember (NirvanaResponse.zero, [])).map fun st => st.1
  | some _ => .error .UnmarshalTypeError

/-! ## The client (client.go:23-190)

The HTTP exchange is outside the package: building the request and
httpClient.Do are inputs of the model, an error or what came back. The dump
of the body that do writes to a file has no effect on what do returns and
is left out. -/

/-- The struct NirvanaClient without its httpClient. -/
structure NirvanaClient where
  BaseURL : String
  authToken : String
  apiType : String
  appID : String
  appVersion : String
  userAgent : String
  deriving DecidableEq, Repr

/-- What httpClient.Do hands back: the status code and the outcome of
reading the body, an error of ioutil.ReadAll or the bytes, as the parsed
document (none for bytes that are no JSON document). -/
structure HTTPResponse where
  StatusCode : Int
  Body : Except String (Option JSON)

/-- The errors the client returns. -/
inductive Failure where
  | external (text : String)
  | errorf (text : String)
  | json (err : JSONError)
  deriving DecidableEq, Repr

/-- How a call ends: it returns, log.Fatal ends the process, or it panics. -/
inductive Outcome (α : Type) where
  | returns (a : α)
  | exits
  | panics (p : GoPanic)
  deriving DecidableEq

/-- The method do with v a pointer to a zero NirvanaResponse: the error, or
the decoded value of v. -/
def NirvanaClient.do_ (httpDo : Except String HTTPResponse) :
    Outcome (Except Failure NirvanaResponse) :=
  match httpDo with
  | .error err => .returns (.error (.external err))
  | .ok resp =>
    if Int.tdiv resp.StatusCode 100 ≠ 2 then
      .returns (.error (.errorf ("HTTP reponse error " ++ fmtD resp.StatusCode)))
    else
      match resp.Body with
      | .error _ => .exits
      | .ok bodyBytes =>
        match unmarshalNirvanaResponse bodyBytes with
        | .error err => .returns (.error (.json err))
        | .ok v => .returns (.ok v)

/-- The method Authenticate: the client after the call and the returned
error. newRequest is the outcome of newRequestURL, httpDo that of
httpClient.Do. -/
def NirvanaClient.Authenticate (c : NirvanaClient) (login passwordMd5 : String)
    (newRequest : Except String Unit) (httpDo : Except String HTTPResponse) :
    Outcome (NirvanaClient × Option Failure) :=
  match newRequest with
  | .error err => .returns (c, some (.external err))
  | .ok _ =>
    match NirvanaClient.do_ httpDo with
    | .exits => .exits
    | .panics p => .panics p
    | .returns (.error err) => .returns (c, some err)
    | .returns (.ok response) =>
      match response.ResultError with
      | .error p => .panics p
      | .ok (some text) => .returns (c, some (.errorf text))
      | .ok none =>
        match response.AuthToken with
        | .error p => .panics p
        | .ok (token, found) =>
          if found then .returns ({ c with authToken := token }, none)
          else .returns (c, some (.errorf "Nirvan Client error: no authentification token"))

/-! ## Notions the properties are stated with -/

/-- Whether a character is an ASCII decimal digit. -/
def isDecimalDigit (c : Char) : Bool := decide ('0' ≤ c) && decide (c ≤ '9')

/-- The number a list of decimal digits denotes, most significant first. -/
def digitsValue (ds : List Char) : Nat :=
  Nat.ofDigits 10 (ds.reverse.map fun c => c.toNat - '0'.toNat)

/-- The integer a string denotes in decimal notation with an optional sign,
none when the string is no such numeral. -/
def decimalValue (s : String) : Option Int :=
  let cs := s.data
  let neg := decide (cs.head? = some '-')
  let ds := if cs.head? = some '+' ∨ cs.head? = some '-' then cs.tail else cs
  if ds ≠ [] ∧ ds.all isDecimalDigit then
    some (if neg then -(digitsValue ds : Int) else (digitsValue ds : Int))
  else none

/-- The character of a decimal digit. -/
def digitChar (k : Nat) : Char :=
  match k % 10 with
  | 0 => '0' | 1 => '1' | 2 => '2' | 3 => '3' | 4 => '4'
  | 5 => '5' | 6 => '6' | 7 => '7' | 8 => '8' | _ => '9'

/-- The eight digits YYYYMMDD of a calendar date. -/
def yyyymmdd (y m d : Nat) : String :=
  ⟨[digitChar (y / 1000), digitChar (y / 100), digitChar (y / 10), digitChar y,
    digitChar (m / 10), digitChar m, digitChar (d / 10), digitChar d]⟩

/-- Whether a year of the Gregorian calendar is a leap year. -/
def leapYear (y : Nat) : Bool := y % 4 == 0 && (y % 100 != 0 || y % 400 == 0)


/-- The day of the year, from 0, of a calendar date. -/
def dayOfYear (leap : Bool) (m d : Nat) : Nat :=
  daysBefore.getD (m - 1) 0 + (if leap && decide (m ≥ 3) then 1 else 0) + (d - 1)

/-- The month and the day of the month of a day of the year, as absDate
computes them. -/
def monthDay (leap : Bool) (yday : Nat) : Nat × Nat :=
  if leap && yday == 31 + 29 - 1 then (2, 29)
  else
    let day := if leap && yday > 31 + 29 - 1 then yday - 1 else yday
    let month := day / 31
    let e := daysBefore.getD (month + 1) 0
    if day ≥ e then (month + 1 + 1, day - e + 1)
    else (month + 1, day - daysBefore.getD month 0 + 1)

/-- The number of days of a month, by the leap flag of the year. -/
def monthLength (leap : Bool) (m : Nat) : Nat :=
  match m with
  | 1 => 31 | 2 => if leap then 29 else 28 | 3 => 31 | 4 => 30 | 5 => 31 | 6 => 30
  | 7 => 31 | 8 => 31 | 9 => 30 | 10 => 31 | 11 => 30 | 12 => 31 | _ => 0

/-- The number of days of a month of the Gregorian calendar. -/
def daysInMonth (y m : Nat) : Nat := monthLength (leapYear y) m

/-- Whether a string is the eight digits YYYYMMDD of a calendar date: four
digits of a year, two of a month from 01 to 12, two of a day that the month
has in that year. -/
def isDateString (s : String) : Bool :=
  match s.data with
  | [a, b, c, d, e, f, g, h] =>
    [a, b, c, d, e, f, g, h].all isDecimalDigit &&
      decide (1 ≤ digitsValue [e, f] ∧ digitsValue [e, f] ≤ 12 ∧ 1 ≤ digitsValue [g, h] ∧
        digitsValue [g, h] ≤ daysInMonth (digitsValue [a, b, c, d]) (digitsValue [e, f]))
  | _ => false

/-- The value of the last member of an object whose key selects the field
with the given tag. -/
def lastValue (ms : List (String × JSON)) (tag : String) : Option JSON :=
  ms.foldl (fun acc kv => if keyMatches kv.1 tag then some kv.2 else acc) none

/-- The int64 a string denotes in decimal notation, none when the string is
no numeral or its value is outside the int64 range. -/
def int64Value (s : String) : Option Int :=
  match decimalValue s with
  | some v => if -9223372036854775808 ≤ v ∧ v < 9223372036854775808 then some v else none
  | none => none

/-! ## Inputs used as examples and counterexamples -/

/-- A task object with completed "0" and deleted "1700000000". -/
def completedDeletedTask : List (String × JSON) :=
  [("completed", .string "0"), ("deleted", .string "1700000000")]

/-- A tag object with the legacy type "0" and a deletion time. -/
def legacyTag : List (String × JSON) :=
  [("key", .string "home"), ("type", .string "0"), ("deleted", .string "1700000000"),
   ("color", .null), ("rank", .number "3")]

/-- A tag object without a deleted member. -/
def tagWithoutDeleted : List (String × JSON) :=
  [("key", .string "home"), ("type", .string "1")]

/-- A task object without startdate and duedate members. -/
def taskWithoutDates : List (String × JSON) :=
  [("id", .string "t1"), ("name", .string "call")]

/-- A task object whose seq is no number. -/
def taskWithBadSeq : List (String × JSON) :=
  [("id", .string "t1"), ("seq", .string "not-a-number"), ("seqp", .string "7"),
   ("name", .string "call")]

/-- A response whose only result carries the error 1401 "bad auth". -/
def badAuthResponse : NirvanaResponse :=
  { Request := APIRequest.zero,
    Results := [{ APIResult.zero with
      Error := { Code := 1401, Message := "bad auth", Request := APIRequest.zero } }] }

/-- A response whose only result carries a negative error code. -/
def negativeCodeResponse : NirvanaResponse :=
  { Request := APIRequest.zero,
    Results := [{ APIResult.zero with
      Error := { Code := -1, Message := "quota", Request := APIRequest.zero } }] }

/-- A response whose first result is empty and whose second result carries
both an error and a token. -/
def laterErrorResponse : NirvanaResponse :=
  { Request := APIRequest.zero,
    Results := [APIResult.zero,
      { APIResult.zero with
        Error := { Code := 500, Message := "late", Request := APIRequest.zero },
        Auth := { Token := "abc123" } }] }

/-- A task object with a startdate and without a duedate. -/
def taskWithStartdate : List (String × JSON) :=
  [("id", .string "t1"), ("name", .string "call"), ("startdate", .string "20240229")]

/-- A receiver whose dates are the sentinel noDate. -/
def frameTaskA : Task :=
  { Task.zero with Name := "old", Seq := 3, Startdate := noDate, Duedate := noDate }

/-- A receiver whose dates are one day after the epoch. -/
def frameTaskB : Task :=
  { Task.zero with
    ID := "t9"
    IsDeleted := true
    Startdate := time_Unix 86400 0
    Duedate := time_Unix 86400 0 }

/-- The results of the envelope of an authentication followed by a user. -/
def authThenUserResults : List JSON :=
  [.object [("auth", .object [("token", .string "abc123")])],
   .object [("user", .object [("id", .string "42")])]]

/-- An envelope whose results are an auth record and then a user record. -/
def authThenUser : List (String × JSON) :=
  [("request", .object [("requestid", .string "r1")]),
   ("results", .array authThenUserResults)]

/-- A reply to auth.new that carries a token. -/
def tokenReply : HTTPResponse :=
  { StatusCode := 200,
    Body := .ok (some (.object [("results", .array
      [.object [("auth", .object [("token", .string "abc123")])]])])) }

/-- A client as NewNirvanaClient builds it. -/
def newClient : NirvanaClient :=
  { BaseURL := "https://api.nirvanahq.com/", authToken := "", apiType := "rest",
    appID := "nirvana-sdk-golang", appVersion := "1", userAgent := "" }

/-- A tag object with the legacy type "0" whose color is a number. -/
def tagWithNumberColor : List (String × JSON) :=
  [("type", .string "0"), ("color", .number "3")]

/-- A task object with a name whose seq is a number. -/
def taskWithNumberSeq : List (String × JSON) :=
  [("name", .string "n"), ("seq", .number "3")]

/-! # Properties -/

/-! ## Helper lemmas -/

theorem len_pos_iff (s : String) : 0 < len s ↔ s ≠ "" := by
  unfold len
  rcases s with ⟨cs⟩
  cases cs with
  | nil => simp [String.utf8ByteSize, String.utf8ByteSize.go]
  | cons c cs =>
    have h := Char.utf8Size_pos c
    have hne : (⟨c :: cs⟩ : String) ≠ "" := by
      intro h
      have := congrArg String.data h
      simp at this
    simp [String.utf8ByteSize, String.utf8ByteSize.go, hne]
    omega

theorem index_zero_cons {α : Type} (x : α) (xs : List α) : index (x :: xs) 0 = .ok x := rfl

theorem ResultError_nil (req : APIRequest) :
    NirvanaResponse.ResultError { Request := req, Results := [] } = .ok none := by
  simp [NirvanaResponse.ResultError]

theorem ResultError_cons (req : APIRequest) (r : APIResult) (rest : List APIResult) :
    NirvanaResponse.ResultError { Request := req, Results := r :: rest } =
      .ok (if 0 < r.Error.Code then responseErrorf r.Error.Code r.Error.Message else none) := by
  by_cases h : 0 < r.Error.Code <;>
    simp [NirvanaResponse.ResultError, index_zero_cons, Except.bind, h]

theorem AuthToken_nil (req : APIRequest) :
    NirvanaResponse.AuthToken { Request := req, Results := [] } = .ok ("", false) := by
  simp [NirvanaResponse.AuthToken]

theorem AuthToken_cons (req : APIRequest) (r : APIResult) (rest : List APIResult) :
    NirvanaResponse.AuthToken { Request := req, Results := r :: rest } =
      .ok (if r.Auth.Token ≠ "" then (r.Auth.Token, true) else ("", false)) := by
  by_cases h : r.Auth.Token ≠ ""
  · have h1 : 0 < len r.Auth.Token := (len_pos_iff _).2 h
    simp [NirvanaResponse.AuthToken, index_zero_cons, Except.bind, h, h1]
  · have h1 : ¬ 0 < len r.Auth.Token := fun hp => h ((len_pos_iff _).1 hp)
    simp [NirvanaResponse.AuthToken, index_zero_cons, Except.bind, h, h1]

/-! ### strconv.ParseInt against decimal notation -/

theorem char_le_iff (a b : Char) : a ≤ b ↔ a.toNat ≤ b.toNat := by
  exact Iff.rfl

theorem isDecimalDigit_iff (c : Char) : isDecimalDigit c = true ↔ 48 ≤ c.toNat ∧ c.toNat ≤ 57 := by
  simp [isDecimalDigit, char_le_iff]

theorem digitsValue_nil : digitsValue [] = 0 := by simp [digitsValue]

theorem digitsValue_cons (c : Char) (ds : List Char) :
    digitsValue (c :: ds) = (c.toNat - 48) * 10 ^ ds.length + digitsValue ds := by
  simp [digitsValue, Nat.ofDigits_append]
  ring


theorem parseUintLoop_digit_step (c : Char) (rest : List Char) (n : Nat)
    (hc : isDecimalDigit c = true) :
    parseUintLoop (c :: rest) n =
      if n ≥ maxUint64 / 10 + 1 then (maxUint64, some .ErrRange)
      else if wrapUint64 ((wrapUint64 ((n * 10 : Nat) : Int) + (c.toNat - 48 : Nat) : Nat) : Int)
          < wrapUint64 ((n * 10 : Nat) : Int) ∨
          wrapUint64 ((wrapUint64 ((n * 10 : Nat) : Int) + (c.toNat - 48 : Nat) : Nat) : Int)
            > maxUint64 then (maxUint64, some .ErrRange)
      else parseUintLoop rest
        (wrapUint64 ((wrapUint64 ((n * 10 : Nat) : Int) + (c.toNat - 48 : Nat) : Nat) : Int)) := by
  have h := (isDecimalDigit_iff c).1 hc
  have h1 : '0' ≤ c ∧ c ≤ '9' := by
    simp [char_le_iff]; exact h
  have hd : ¬ (c.toNat - 48 ≥ 10) := by omega
  rw [parseUintLoop]
  simp only [h1, and_self, if_true]
  simp [hd]

theorem wrapUint64_of_lt (x : Nat) (h : x < 18446744073709551616) :
    wrapUint64 (x : Int) = x := by
  unfold wrapUint64
  omega

theorem wrapUint64_of_ge (x : Nat) (h1 : 18446744073709551616 ≤ x)
    (h2 : x < 2 * 18446744073709551616) :
    wrapUint64 (x : Int) = x - 18446744073709551616 := by
  unfold wrapUint64
  omega

theorem parseUintLoop_digits (ds : List Char) (hd : ∀ c ∈ ds, isDecimalDigit c = true) :
    ∀ n : Nat, n < 18446744073709551616 →
    parseUintLoop ds n =
      if n * 10 ^ ds.length + digitsValue ds < 18446744073709551616 then
        (n * 10 ^ ds.length + digitsValue ds, none)
      else (maxUint64, some .ErrRange) := by
  induction ds with
  | nil =>
    intro n hn
    simp [parseUintLoop, digitsValue_nil, hn]
  | cons c rest ih =>
    intro n hn
    have hc : isDecimalDigit c = true := hd c (List.mem_cons_self _ _)
    have hrest : ∀ c ∈ rest, isDecimalDigit c = true :=
      fun x hx => hd x (List.mem_cons_of_mem _ hx)
    have hcd := (isDecimalDigit_iff c).1 hc
    rw [parseUintLoop_digit_step c rest n hc, digitsValue_cons]
    have hP : 1 ≤ 10 ^ rest.length := Nat.one_le_pow _ _ (by norm_num)
    have hT : n * 10 ^ (c :: rest).length + ((c.toNat - 48) * 10 ^ rest.length + digitsValue rest)
        = (n * 10 + (c.toNat - 48)) * 10 ^ rest.length + digitsValue rest := by
      simp only [List.length_cons, pow_succ]
      ring
    have hmono : n * 10 + (c.toNat - 48) ≤ (n * 10 + (c.toNat - 48)) * 10 ^ rest.length :=
      Nat.le_mul_of_pos_right _ hP
    rw [hT]
    generalize 10 ^ rest.length = P at *
    generalize digitsValue rest = V at *
    by_cases hcut : n ≥ maxUint64 / 10 + 1
    · have hcut2 : 1844674407370955162 ≤ n := by simpa [maxUint64] using hcut
      have : ¬ ((n * 10 + (c.toNat - 48)) * P + V < 18446744073709551616) := by omega
      simp [hcut, this]
    · have hcut2 : n < 1844674407370955162 := by
        simp only [maxUint64] at hcut; omega
      rw [if_neg hcut, wrapUint64_of_lt (n * 10) (by omega)]
      by_cases hov : n * 10 + (c.toNat - 48) < 18446744073709551616
      · rw [wrapUint64_of_lt (n * 10 + (c.toNat - 48)) hov]
        have hno : ¬ (n * 10 + (c.toNat - 48) < n * 10 ∨
            n * 10 + (c.toNat - 48) > maxUint64) := by
          simp only [maxUint64]; omega
        rw [if_neg hno, ih hrest _ hov]
      · rw [wrapUint64_of_ge (n * 10 + (c.toNat - 48)) (by omega) (by omega)]
        have hyes : n * 10 + (c.toNat - 48) - 18446744073709551616 < n * 10 ∨
            n * 10 + (c.toNat - 48) - 18446744073709551616 > maxUint64 := by
          left; omega
        have : ¬ ((n * 10 + (c.toNat - 48)) * P + V < 18446744073709551616) := by omega
        rw [if_pos hyes, if_neg this]

theorem parseUintLoop_nondigit (cs : List Char) (h : ∃ c ∈ cs, isDecimalDigit c = false) :
    ∀ n : Nat, (parseUintLoop cs n).2 ≠ none := by
  induction cs with
  | nil => simp at h
  | cons c rest ih =>
    intro n
    by_cases hc : isDecimalDigit c = true
    · have hrest : ∃ c ∈ rest, isDecimalDigit c = false := by
        obtain ⟨x, hx, hxd⟩ := h
        rcases List.mem_cons.1 hx with rfl | hx
        · rw [hc] at hxd; cases hxd
        · exact ⟨x, hx, hxd⟩
      rw [parseUintLoop_digit_step c rest n hc]
      split
      · simp
      · split
        · simp
        · exact ih hrest _
    · have h1 : ¬ ('0' ≤ c ∧ c ≤ '9') := by
        intro h1
        apply hc
        simp only [char_le_iff] at h1
        exact (isDecimalDigit_iff c).2 h1
      rw [parseUintLoop]
      simp only [h1, if_false]
      by_cases hl : c.toNat < 128 ∧ 'a'.toNat ≤ lower c.toNat ∧ lower c.toNat ≤ 'z'.toNat
      · rw [if_pos hl]; simp
      · rw [if_neg hl]; simp

theorem parseUintLoop_range_value (cs : List Char) :
    ∀ n : Nat, (parseUintLoop cs n).2 = some .ErrRange → (parseUintLoop cs n).1 = maxUint64 := by
  induction cs with
  | nil => intro n h; simp [parseUintLoop] at h
  | cons c rest ih =>
    intro n
    rw [parseUintLoop]
    split
    · simp
    · split
      · simp
      · split
        · simp
        · simp only []
          split
          · simp
          · exact ih _

theorem wrapInt64_of_range (x : Int) (h1 : -9223372036854775808 ≤ x)
    (h2 : x < 9223372036854775808) : wrapInt64 x = x := by
  unfold wrapInt64
  omega

theorem wrapInt64_range (x : Int) :
    -9223372036854775808 ≤ wrapInt64 x ∧ wrapInt64 x < 9223372036854775808 := by
  unfold wrapInt64
  omega

/-- The outcome of ParseInt on the digits after the sign. -/
theorem ParseInt_eq (s : String) (hs : s ≠ "") :
    ParseInt s =
      (let cs := s.data
       let neg := decide (cs.head? = some '-')
       let cs1 := if cs.head? = some '+' ∨ cs.head? = some '-' then cs.tail else cs
       let r := ParseUint cs1
       if r.2 ≠ none ∧ r.2 ≠ some .ErrRange then (0, r.2)
       else
         let cutoff : Nat := 9223372036854775808
         if !neg ∧ r.1 ≥ cutoff then ((cutoff : Int) - 1, some .ErrRange)
         else if neg ∧ r.1 > cutoff then (-(cutoff : Int), some .ErrRange)
         else
           let n := wrapInt64 r.1
           (if neg then wrapInt64 (-n) else n, none)) := by
  rw [ParseInt, if_neg hs]

theorem ParseInt_spec (s : String) :
    match decimalValue s with
    | some v =>
      if v < -9223372036854775808 then ParseInt s = (-9223372036854775808, some .ErrRange)
      else if 9223372036854775808 ≤ v then ParseInt s = (9223372036854775807, some .ErrRange)
      else ParseInt s = (v, none)
    | none => (ParseInt s).2 ≠ none := by
  by_cases hs : s = ""
  · subst hs
    simp [decimalValue, ParseInt]
  rw [ParseInt_eq s hs]
  unfold decimalValue
  simp only []
  generalize hneg : decide (s.data.head? = some '-') = neg
  generalize (if s.data.head? = some '+' ∨ s.data.head? = some '-' then s.data.tail else s.data)
    = ds
  by_cases hnil : ds = []
  · subst hnil
    simp [ParseUint]
  by_cases hall : ds.all isDecimalDigit = true
  · have hd : ∀ c ∈ ds, isDecimalDigit c = true := by
      simpa [List.all_eq_true] using hall
    have hloop := parseUintLoop_digits ds hd 0 (by norm_num)
    simp only [zero_mul, zero_add] at hloop
    have hpu : ParseUint ds = parseUintLoop ds 0 := by simp [ParseUint, hnil]
    rw [if_pos ⟨hnil, hall⟩, hpu, hloop]
    generalize digitsValue ds = V
    by_cases hV : V < 18446744073709551616
    · rw [if_pos hV]
      cases neg with
      | true =>
        simp only [if_true]
        by_cases h1 : V > 9223372036854775808
        · have : (-(V : Int) < -9223372036854775808) := by omega
          simp [h1, this]
        · have : ¬ (-(V : Int) < -9223372036854775808) := by omega
          have h3 : ¬ ((9223372036854775808 : Int) ≤ -(V : Int)) := by omega
          have h4 : wrapInt64 (-wrapInt64 (V : Int)) = -(V : Int) := by
            unfold wrapInt64; omega
          simp [h1, this, h3, h4]
      | false =>
        by_cases h1 : V ≥ 9223372036854775808
        · have : ¬ ((V : Int) < -9223372036854775808) := by omega
          have h3 : ((9223372036854775808 : Int) ≤ (V : Int)) := by omega
          simp [h1, this, h3]
        · have : ¬ ((V : Int) < -9223372036854775808) := by omega
          have h3 : ¬ ((9223372036854775808 : Int) ≤ (V : Int)) := by omega
          have h4 : wrapInt64 (V : Int) = (V : Int) := by
            unfold wrapInt64; omega
          simp [h1, this, h3, h4]
    · rw [if_neg hV]
      cases neg with
      | true =>
        have : (-(V : Int) < -9223372036854775808) := by omega
        simp [maxUint64, this]
      | false =>
        have : ¬ ((V : Int) < -9223372036854775808) := by omega
        have h3 : ((9223372036854775808 : Int) ≤ (V : Int)) := by omega
        simp [maxUint64, this, h3]
  · have hex : ∃ c ∈ ds, isDecimalDigit c = false := by
      simpa [List.all_eq_true] using hall
    have hpu : ParseUint ds = parseUintLoop ds 0 := by simp [ParseUint, hnil]
    have herr := parseUintLoop_nondigit ds hex 0
    have hval := parseUintLoop_range_value ds 0
    rw [if_neg (fun h => hall h.2), hpu]
    generalize parseUintLoop ds 0 = r at herr hval
    rcases r with ⟨v, e⟩
    cases e with
    | none => exact absurd rfl herr
    | some e =>
      cases e with
      | ErrSyntax => simp
      | ErrRange =>
        have hv : v = maxUint64 := hval rfl
        subst hv
        cases neg <;> simp [maxUint64]

theorem strInt64_spec (val : String) (d : Int) (name : String) :
    strInt64 val d name =
      match decimalValue val with
      | some v => if -9223372036854775808 ≤ v ∧ v < 9223372036854775808 then v else d
      | none => d := by
  by_cases hs : val = ""
  · subst hs
    simp [strInt64, decimalValue]
  have h := ParseInt_spec val
  rw [strInt64, if_neg hs]
  simp only []
  cases hv : decimalValue val with
  | none =>
    rw [hv] at h
    simp only [] at h
    simp [h]
  | some v =>
    rw [hv] at h
    simp only [] at h
    by_cases h1 : v < -9223372036854775808
    · rw [if_pos h1] at h
      have : ¬ (-9223372036854775808 ≤ v ∧ v < 9223372036854775808) := by omega
      simp [h, this]
    · rw [if_neg h1] at h
      by_cases h2 : 9223372036854775808 ≤ v
      · rw [if_pos h2] at h
        have : ¬ (-9223372036854775808 ≤ v ∧ v < 9223372036854775808) := by omega
        simp [h, this]
      · rw [if_neg h2] at h
        have : (-9223372036854775808 ≤ v ∧ v < 9223372036854775808) := by omega
        simp [h, this]

/-! ### The decoders, unfolded -/

theorem time_Unix_zero_nsec (sec : Int) : time_Unix sec 0 = unixTime sec 0 := by
  simp [time_Unix]

theorem Unix_time_Unix (n : Int) (h1 : -9223372036854775808 ≤ n) (h2 : n < 9223372036854775808) :
    (time_Unix n 0).Unix = n := by
  rw [time_Unix_zero_nsec]
  simp only [Time.Unix, unixTime, internalToUnix, unixToInternal, wrapInt64]
  omega

theorem typeMismatch_of_strings (tags : List String) (ms : List (String × JSON))
    (h : ∀ kv ∈ ms, ∃ s, kv.2 = JSON.string s) : typeMismatch tags ms = false := by
  unfold typeMismatch
  rw [List.any_eq_false]
  intro kv hkv
  obtain ⟨s, hs⟩ := h kv hkv
  simp [hs]

theorem Task_UnmarshalJSON_ok (task : Task) (data : Option JSON) (res : TaskJSON)
    (h : unmarshalTaskJSON data = .ok res) :
    Task.UnmarshalJSON task data =
      ({ ID := res.ID, Type_ := res.Type_, Sequential := parseBool res.Sequential,
         State := res.State, ParentID := res.ParentID,
         Seq := strInt64 res.Seq 0 "task.seq",
         Seqt := strUnixTime res.Seqt 0 "task.seqt",
         Seqp := strInt64 res.Seqp 0 "task.seqp",
         Name := res.Name, Tags := res.Tags,
         Etime := strInt64 res.Etime 0 "task.etime",
         Energy := strInt64 res.Energy 0 "task.energy",
         Waitingfor := res.Waitingfor,
         Startdate := if (parseYYYMMDD res.Startdate "task.startdate").2 then
           (parseYYYMMDD res.Startdate "task.startdate").1 else task.Startdate,
         Duedate := if (parseYYYMMDD res.Duedate "task.duedate").2 then
           (parseYYYMMDD res.Duedate "task.duedate").1 else task.Duedate,
         Recurring := res.Recurring, Note := res.Note,
         Completed := strUnixTime res.Completed 0 "task.completed",
         Cancelled := parseBool res.Cancelled,
         Deleted := strUnixTime res.Deleted 0 "task.deleted",
         Updated := strUnixTime res.Updated 0 "task.updated",
         IsDeleted := res.Deleted != "0",
         IsCompleted := res.Completed != "0" }, none) := by
  unfold Task.UnmarshalJSON
  rw [h]
  simp only []
  by_cases h1 : (parseYYYMMDD res.Startdate "task.startdate").2 = true <;>
    by_cases h2 : (parseYYYMMDD res.Duedate "task.duedate").2 = true <;>
    simp [h1, h2]

theorem Tag_UnmarshalJSON_ok (tag : Tag) (data : Option JSON) (res : TagJSON)
    (h : unmarshalTagJSON data = .ok res) :
    Tag.UnmarshalJSON tag data =
      ({ Key := res.Key, Type_ := if res.Type_ = "0" then Context else res.Type_,
         Email := res.Email, Color := res.Color, Meta := res.Meta,
         Deleted := strUnixTime res.Deleted 0 "tag.deleted",
         IsDeleted := res.Deleted != "0" }, none) := by
  unfold Tag.UnmarshalJSON
  rw [h]
  simp only []
  by_cases h1 : res.Type_ = "0" <;> simp [h1]

theorem unmarshalTaskJSON_strings (ms : List (String × JSON))
    (h : ∀ kv ∈ ms, ∃ s, kv.2 = JSON.string s) :
    unmarshalTaskJSON (some (.object ms)) = .ok (TaskJSON.ofMembers ms) := by
  simp [unmarshalTaskJSON, typeMismatch_of_strings _ _ h]

theorem unmarshalTagJSON_object (ms : List (String × JSON))
    (h : typeMismatch tagJSONTags ms = false) :
    unmarshalTagJSON (some (.object ms)) = .ok (TagJSON.ofMembers ms) := by
  simp [unmarshalTagJSON, h]

theorem fieldString_absent (ms : List (String × JSON)) (tag : String)
    (h : ∀ kv ∈ ms, keyMatches kv.1 tag = false) : fieldString ms tag = "" := by
  unfold fieldString
  suffices hs : ∀ (l : List (String × JSON)) (acc : String),
      (∀ kv ∈ l, keyMatches kv.1 tag = false) →
      l.foldl (fun acc kv =>
        if keyMatches kv.1 tag then
          match kv.2 with
          | .string s => s
          | _ => acc
        else acc) acc = acc from hs ms "" h
  intro l
  induction l with
  | nil => intro acc _; rfl
  | cons kv rest ih =>
    intro acc hl
    have h1 : keyMatches kv.1 tag = false := hl kv (List.mem_cons_self _ _)
    rw [List.foldl_cons]
    simp only [h1]
    exact ih acc (fun x hx => hl x (List.mem_cons_of_mem _ hx))

theorem strInt64_int64Value (val : String) (d : Int) (name : String) :
    strInt64 val d name = (int64Value val).getD d := by
  rw [strInt64_spec, int64Value]
  cases decimalValue val with
  | none => rfl
  | some v =>
    by_cases h : -9223372036854775808 ≤ v ∧ v < 9223372036854775808 <;> simp [h]

theorem Task_UnmarshalJSON_error (task : Task) (data : Option JSON) (err : JSONError)
    (h : unmarshalTaskJSON data = .error err) :
    Task.UnmarshalJSON task data = (task, some err) := by
  unfold Task.UnmarshalJSON
  rw [h]

theorem parseYYYMMDD_empty (name : String) : parseYYYMMDD "" name = (noDate, false) := by
  simp [parseYYYMMDD]

/-! ### time.Parse on the digits of a date -/

theorem digitChar_toNat (k : Nat) : (digitChar k).toNat = 48 + k % 10 := by
  unfold digitChar
  have h : k % 10 < 10 := Nat.mod_lt _ (by norm_num)
  generalize k % 10 = r at h
  interval_cases r <;> rfl

theorem digitChar_isDigit (k : Nat) (rest : List Char) : isDigit (digitChar k :: rest) 0 = true := by
  have h := digitChar_toNat k
  simp [isDigit, char_le_iff]
  omega

theorem leadingInt_digit (k : Nat) (rest : List Char) (x : Nat) (hx : x ≤ 1000000) :
    leadingInt (digitChar k :: rest) x = leadingInt rest (x * 10 + k % 10) := by
  have h := digitChar_toNat k
  have hk : k % 10 < 10 := Nat.mod_lt _ (by norm_num)
  have h1 : ¬ (digitChar k < '0' ∨ digitChar k > '9') := by
    have e1 : ('0' : Char).toNat = 48 := rfl
    have e2 : ('9' : Char).toNat = 57 := rfl
    simp only [gt_iff_lt, Char.lt_def, not_or]
    constructor
    · show ¬ (digitChar k).val < ('0' : Char).val
      have : ('0' : Char).toNat ≤ (digitChar k).toNat := by omega
      exact Nat.not_lt.2 this
    · show ¬ ('9' : Char).val < (digitChar k).val
      have : (digitChar k).toNat ≤ ('9' : Char).toNat := by omega
      exact Nat.not_lt.2 this
  have h2 : ¬ (x > 9223372036854775808 / 10) := by omega
  have e0 : ('0' : Char).toNat = 48 := rfl
  have h3 : x * 10 + (digitChar k).toNat - '0'.toNat = x * 10 + k % 10 := by omega
  have h4 : ¬ (x * 10 + k % 10 > 9223372036854775808) := by omega
  rw [leadingInt, if_neg h1, if_neg h2]
  simp only [h3, if_neg h4]

theorem digitChar_ne_sign (k : Nat) : digitChar k ≠ '-' ∧ digitChar k ≠ '+' := by
  have h := digitChar_toNat k
  constructor
  · intro e
    rw [e] at h
    have : ('-' : Char).toNat = 45 := rfl
    omega
  · intro e
    rw [e] at h
    have : ('+' : Char).toNat = 43 := rfl
    omega

theorem atoi_four_digits (a b c d : Nat) :
    atoi [digitChar a, digitChar b, digitChar c, digitChar d] =
      some (((a % 10 * 10 + b % 10) * 10 + c % 10) * 10 + d % 10 : Nat) := by
  have hs := digitChar_ne_sign a
  have ha : a % 10 < 10 := Nat.mod_lt _ (by norm_num)
  have hb : b % 10 < 10 := Nat.mod_lt _ (by norm_num)
  have hc : c % 10 < 10 := Nat.mod_lt _ (by norm_num)
  have hd : d % 10 < 10 := Nat.mod_lt _ (by norm_num)
  unfold atoi
  simp only [List.head?_cons, Option.some.injEq, hs.1, hs.2, or_self, if_false, decide_False]
  rw [leadingInt_digit a _ 0 (by norm_num), leadingInt_digit b _ _ (by omega),
    leadingInt_digit c _ _ (by omega), leadingInt_digit d _ _ (by omega), leadingInt]
  simp only [List.length_nil, gt_iff_lt, lt_self_iff_false, if_false, zero_mul, zero_add]
  have hN : ((a % 10 * 10 + b % 10) * 10 + c % 10) * 10 + d % 10 < 10000 := by omega
  generalize ((a % 10 * 10 + b % 10) * 10 + c % 10) * 10 + d % 10 = N at hN
  rw [wrapInt64_of_range (N : Int) (by omega) (by omega)]
  simp

theorem getnum_two_digits (a b : Nat) (rest : List Char) :
    getnum (digitChar a :: digitChar b :: rest) true =
      some (((a % 10 * 10 + b % 10 : Nat) : Int), rest) := by
  have h1 : isDigit (digitChar a :: digitChar b :: rest) 0 = true := digitChar_isDigit a _
  have h2 : isDigit (digitChar a :: digitChar b :: rest) 1 = true := by
    have h := digitChar_toNat b
    simp [isDigit, char_le_iff]
    omega
  have ea := digitChar_toNat a
  have eb := digitChar_toNat b
  have e0 : ('0' : Char).toNat = 48 := rfl
  unfold getnum
  simp only [h1, h2, Bool.not_true, Bool.false_eq_true, if_false, List.getD_cons_zero,
    List.getD_cons_succ, List.drop_succ_cons, List.drop_zero, ea, eb, e0]
  simp

theorem isLeap_natCast (y : Nat) : isLeap (y : Int) = leapYear y := by
  unfold isLeap leapYear
  rw [Int.tmod_eq_emod (Int.ofNat_nonneg y) (by norm_num),
    Int.tmod_eq_emod (Int.ofNat_nonneg y) (by norm_num),
    Int.tmod_eq_emod (Int.ofNat_nonneg y) (by norm_num)]
  have h4 : ((y : Int) % 4 == 0) = (y % 4 == 0) := by
    rw [Bool.eq_iff_iff]; simp only [beq_iff_eq]; omega
  have h100 : ((y : Int) % 100 != 0) = (y % 100 != 0) := by
    rw [Bool.eq_iff_iff]; simp only [bne_iff_ne, ne_eq]; omega
  have h400 : ((y : Int) % 400 == 0) = (y % 400 == 0) := by
    rw [Bool.eq_iff_iff]; simp only [beq_iff_eq]; omega
  rw [h4, h100, h400]

theorem daysIn_natCast (y m : Nat) (hm1 : 1 ≤ m) (hm : m ≤ 12) :
    daysIn (m : Int) (y : Int) = daysInMonth y m := by
  unfold daysIn
  rw [isLeap_natCast]
  interval_cases m <;> cases hl : leapYear y <;> simp [daysInMonth, monthLength, daysBefore, hl]

theorem time_Parse_yyyymmdd (y m d : Nat) (hm1 : 1 ≤ m) (hm : m ≤ 12) (hd1 : 1 ≤ d)
    (hd : d ≤ daysInMonth y m) (hy : y ≤ 9999) :
    time_Parse (yyyymmdd y m d) = .ok (Date y m d 0 0 0 0) := by
  have hd31 : d ≤ 31 := by
    have : daysInMonth y m ≤ 31 := by
      unfold daysInMonth monthLength
      interval_cases m <;> cases leapYear y <;> simp
    omega
  have hyear : (((y / 1000) % 10 * 10 + (y / 100) % 10) * 10 + (y / 10) % 10) * 10 + y % 10 = y := by
    omega
  have hmonth : (m / 10) % 10 * 10 + m % 10 = m := by omega
  have hday : (d / 10) % 10 * 10 + d % 10 = d := by omega
  unfold time_Parse
  simp only [yyyymmdd, List.length_cons, List.length_nil, digitChar_isDigit, List.take, List.drop,
    atoi_four_digits, getnum_two_digits, hyear, hmonth, hday]
  have h1n : ¬ (m = 0 ∨ 12 < m) := by omega
  have h2n : ¬ (d = 0 ∨ daysIn (m : Int) (y : Int) < (d : Int)) := by
    rw [daysIn_natCast y m hm1 hm]; omega
  simp [h1n, h2n]

/-! ### time.Date and Time.Date -/

theorem cycles_400 (q e : Nat) (he : e < 146097) :
    (146097 * q + e) / 146097 = q := by omega

theorem cycles_100 (a e : Nat) (ha : a < 4) (he : e < 36524 ∨ (e = 36524 ∧ a = 3)) :
    (36524 * a + e) / 36524 - (36524 * a + e) / 36524 / 4 = a := by omega

theorem cycles_4 (b f : Nat) (hf : f < 1461) : (1461 * b + f) / 1461 = b := by omega

theorem cycles_1 (t yd : Nat) (ht : t < 4) (hyd : yd < 365 ∨ (yd = 365 ∧ t = 3)) :
    (365 * t + yd) / 365 - (365 * t + yd) / 365 / 4 = t := by omega

theorem absDate_of_days (q a b t yd : Nat) (ha : a < 4) (hb : b < 25) (ht : t < 4)
    (hyd : yd < 365 ∨ (yd = 365 ∧ t = 3 ∧ (b < 24 ∨ a = 3))) :
    absDate ((146097 * q + 36524 * a + 1461 * b + 365 * t + yd) * 86400) =
      (wrapInt64 (wrapInt64 ((400 * q + 100 * a + 4 * b + t : Nat) : Int) + absoluteZeroYear),
       (monthDay (isLeap (wrapInt64 (wrapInt64 ((400 * q + 100 * a + 4 * b + t : Nat) : Int)
          + absoluteZeroYear))) yd).1,
       (monthDay (isLeap (wrapInt64 (wrapInt64 ((400 * q + 100 * a + 4 * b + t : Nat) : Int)
          + absoluteZeroYear))) yd).2, yd) := by
  have h0 : (146097 * q + 36524 * a + 1461 * b + 365 * t + yd) * 86400 / 86400
      = 146097 * q + (36524 * a + (1461 * b + (365 * t + yd))) := by omega
  have h1 := cycles_400 q (36524 * a + (1461 * b + (365 * t + yd))) (by omega)
  have h1' : 146097 * q + (36524 * a + (1461 * b + (365 * t + yd))) - 146097 * q
      = 36524 * a + (1461 * b + (365 * t + yd)) := by omega
  have h2 := cycles_100 a (1461 * b + (365 * t + yd)) ha (by omega)
  have h2' : 36524 * a + (1461 * b + (365 * t + yd)) - 36524 * a
      = 1461 * b + (365 * t + yd) := by omega
  have h3 := cycles_4 b (365 * t + yd) (by omega)
  have h3' : 1461 * b + (365 * t + yd) - 1461 * b = 365 * t + yd := by omega
  have h4 := cycles_1 t yd ht (by omega)
  have h4' : 365 * t + yd - 365 * t = yd := by omega
  unfold absDate monthDay
  simp only [secondsPerDay, secondsPerHour, secondsPerMinute, daysPer400Years, daysPer100Years,
    daysPer4Years, Nat.shiftRight_eq_div_pow]
  simp only [Nat.reduceMul, Nat.reduceAdd, Nat.reducePow, Nat.reduceSub]
  rw [h0, h1, h1', h2, h2', h3, h3', h4, h4']
  generalize wrapInt64 (wrapInt64 ((400 * q + 100 * a + 4 * b + t : Nat) : Int)
    + absoluteZeroYear) = yr
  generalize isLeap yr = l
  split_ifs <;> rfl

theorem monthDay_dayOfYear_fin (l : Bool) :
    ∀ m : Fin 13, ∀ d : Fin 32, 1 ≤ m.val → 1 ≤ d.val → d.val ≤ monthLength l m.val →
      monthDay l (dayOfYear l m.val d.val) = (m.val, d.val) ∧
      dayOfYear l m.val d.val < 365 + (if l then 1 else 0) := by
  cases l <;> decide

theorem monthDay_dayOfYear (l : Bool) (m d : Nat) (hm1 : 1 ≤ m) (hm : m ≤ 12) (hd1 : 1 ≤ d)
    (hd : d ≤ monthLength l m) :
    monthDay l (dayOfYear l m d) = (m, d) ∧ dayOfYear l m d < 365 + (if l then 1 else 0) := by
  have hd31 : d ≤ 31 := by
    have : monthLength l m ≤ 31 := by
      unfold monthLength
      interval_cases m <;> cases l <;> simp
    omega
  exact monthDay_dayOfYear_fin l ⟨m, by omega⟩ ⟨d, by omega⟩ hm1 hd1 hd

theorem daysSinceEpoch_natCast (y : Nat) (hy : y ≤ 9999) :
    daysSinceEpoch (y : Int) =
      146097 * ((y + 292277022399) / 400) + 36524 * ((y + 292277022399) % 400 / 100)
        + 1461 * ((y + 292277022399) % 100 / 4) + 365 * ((y + 292277022399) % 4) := by
  have hw : wrapUint64 ((y : Int) - absoluteZeroYear) = y + 292277022399 := by
    unfold wrapUint64 absoluteZeroYear
    omega
  unfold daysSinceEpoch
  simp only [hw, daysPer400Years, daysPer100Years, daysPer4Years, Nat.reduceMul, Nat.reduceAdd]
  omega

theorem norm_of_range (hi lo base : Int) (h0 : 0 ≤ lo) (h1 : lo < base) :
    norm hi lo base = (hi, lo) := by
  unfold norm
  have h2 : ¬ lo < 0 := by omega
  have h3 : ¬ lo ≥ base := by omega
  simp only [if_neg h2, if_neg h3]

theorem Date_midnight (y m d : Nat) (hm1 : 1 ≤ m) (hm : m ≤ 12) (hd1 : 1 ≤ d) (hd : d ≤ 31)
    (hy : y ≤ 9999) :
    Date y m d 0 0 0 0 =
      { wall := 0,
        ext := wrapInt64 (wrapInt64 (wrapInt64
          (((daysSinceEpoch (y : Int) + dayOfYear (isLeap (y : Int)) m d) * 86400 : Nat) : Int)
            + (absoluteToInternal + internalToUnix)) + unixToInternal),
        loc := .UTC } := by
  have hds := daysSinceEpoch_natCast y hy
  have hbound : daysSinceEpoch (y : Int) < 106751995000000 := by
    rw [hds]; omega
  clear hds
  have hdb : daysBefore.getD (m - 1) 0 ≤ 334 := by
    interval_cases m <;> simp [daysBefore]
  have n1 := norm_of_range (y : Int) ((m : Int) - 1) 12 (by omega) (by omega)
  have n2 := norm_of_range 0 0 1000000000 (by norm_num) (by norm_num)
  have n3 := norm_of_range 0 0 60 (by norm_num) (by norm_num)
  have n4 := norm_of_range (d : Int) 0 24 (by norm_num) (by norm_num)
  unfold Date
  simp only [n1, n2, n3, n4, unixTime, dayOfYear]
  have e1 : ((m : Int) - 1 + 1 - 1).toNat = m - 1 := by omega
  have e2 : decide ((m : Int) - 1 + 1 ≥ 3) = decide (m ≥ 3) := by
    rw [Bool.eq_iff_iff]; simp only [decide_eq_true_eq]; omega
  rw [e1, e2]
  generalize daysSinceEpoch (y : Int) = D at hbound
  generalize daysBefore.getD (m - 1) 0 = B at hdb
  have w0 : wrapUint64 (0 * (secondsPerHour : Int) + 0 * (secondsPerMinute : Int) + 0) = 0 := by
    simp [wrapUint64]
  have w1 : wrapUint64 ((D : Int) + (B : Int)) = D + B := by
    unfold wrapUint64; omega
  have w2 : wrapUint64 (((D + B : Nat) : Int) + 1) = D + B + 1 := by
    unfold wrapUint64; omega
  have w3 : wrapUint64 ((d : Int) - 1) = d - 1 := by
    unfold wrapUint64; omega
  have w4 : ∀ x : Nat, x ≤ D + B + 1 →
      wrapUint64 ((x : Int) + ((d - 1 : Nat) : Int)) = x + (d - 1) := by
    intro x hx; unfold wrapUint64; omega
  have w5 : ∀ x : Nat, x ≤ D + B + 32 →
      wrapUint64 ((x : Int) * (secondsPerDay : Int)) = x * 86400 := by
    intro x hx
    have hc : (x : Int) * (secondsPerDay : Int) = ((x * 86400 : Nat) : Int) := by
      simp only [secondsPerDay, secondsPerHour, secondsPerMinute, Nat.reduceMul]
      push_cast
      rfl
    rw [hc]
    exact wrapUint64_of_lt _ (by omega)
  have w6 : ∀ x : Nat, x ≤ D + B + 32 →
      wrapUint64 (((x * 86400 : Nat) : Int) + ((0 : Nat) : Int)) = x * 86400 := by
    intro x hx
    have hc : ((x * 86400 : Nat) : Int) + ((0 : Nat) : Int) = ((x * 86400 : Nat) : Int) := by
      simp
    rw [hc]
    exact wrapUint64_of_lt _ (by omega)
  rw [w0, w1, w2, w3]
  cases isLeap (y : Int) <;> by_cases h3 : m ≥ 3
  all_goals
    simp only [h3, decide_True, decide_False, Bool.and_true, Bool.and_false, Bool.false_and,
      Bool.true_and, if_true, if_false, Bool.false_eq_true]
  · rw [w4 (D + B) (by omega), w5 (D + B + (d - 1)) (by omega),
      w6 (D + B + (d - 1)) (by omega)]
    simp [Nat.add_assoc]
  · rw [w4 (D + B) (by omega), w5 (D + B + (d - 1)) (by omega),
      w6 (D + B + (d - 1)) (by omega)]
    simp [Nat.add_assoc]
  · rw [w4 (D + B + 1) (by omega), w5 (D + B + 1 + (d - 1)) (by omega),
      w6 (D + B + 1 + (d - 1)) (by omega)]
    simp [Nat.add_assoc]
  · rw [w4 (D + B) (by omega), w5 (D + B + (d - 1)) (by omega),
      w6 (D + B + (d - 1)) (by omega)]
    simp [Nat.add_assoc]

theorem wrapInt64_add_wrapInt64 (x c : Int) : wrapInt64 (wrapInt64 x + c) = wrapInt64 (x + c) := by
  unfold wrapInt64
  omega

theorem abs_of_ext (A : Nat) (hA : A < 18446744073709551616) (w : Nat) (l : Location) :
    Time.abs { wall := w,
               ext := wrapInt64 (wrapInt64 (wrapInt64 (A : Int)
                 + (absoluteToInternal + internalToUnix)) + unixToInternal),
               loc := l } = A := by
  simp only [Time.abs, Time.Unix, wrapInt64_add_wrapInt64]
  simp only [absoluteToInternal, internalToUnix, unixToInternal, internalToAbsolute]
  unfold wrapInt64 wrapUint64
  omega

theorem yyyymmdd_ne_empty (y m d : Nat) : yyyymmdd y m d ≠ "" := by
  intro h
  have := congrArg String.data h
  simp [yyyymmdd] at this

theorem wrapInt64_year (y : Nat) (hy : y ≤ 9999) :
    wrapInt64 (wrapInt64 ((y + 292277022399 : Nat) : Int) + absoluteZeroYear) = (y : Int) := by
  unfold wrapInt64 absoluteZeroYear
  omega

theorem Date_midnight_fields (y m d : Nat) (hm1 : 1 ≤ m) (hm : m ≤ 12) (hd1 : 1 ≤ d)
    (hd : d ≤ daysInMonth y m) (hy : y ≤ 9999) :
    (Date y m d 0 0 0 0).loc = .UTC ∧ (Date y m d 0 0 0 0).Date = ((y : Int), m, d) ∧
    (Date y m d 0 0 0 0).Clock = (0, 0, 0) ∧ (Date y m d 0 0 0 0).Nanosecond = 0 := by
  have hml : d ≤ monthLength (leapYear y) m := hd
  have hd31 : d ≤ 31 := by
    have : monthLength (leapYear y) m ≤ 31 := by
      unfold monthLength
      interval_cases m <;> cases leapYear y <;> simp
    omega
  obtain ⟨hmd, hyd⟩ := monthDay_dayOfYear (leapYear y) m d hm1 hm hd1 hml
  rw [Date_midnight y m d hm1 hm hd1 hd31 hy, isLeap_natCast]
  have hds := daysSinceEpoch_natCast y hy
  have hbound : daysSinceEpoch (y : Int) < 106751995000000 := by
    rw [hds]; omega
  have hA : (daysSinceEpoch (y : Int) + dayOfYear (leapYear y) m d) * 86400
      < 18446744073709551616 := by
    cases hl : leapYear y <;> simp only [hl] at hyd <;> simp at hyd <;> omega
  have habs := abs_of_ext _ hA 0 .UTC
  refine ⟨rfl, ?_, ?_, ?_⟩
  · have hleap : leapYear y = true →
        (y + 292277022399) % 4 = 3 ∧
          ((y + 292277022399) % 100 / 4 < 24 ∨ (y + 292277022399) % 400 / 100 = 3) := by
      intro hl
      simp only [leapYear, Bool.and_eq_true, Bool.or_eq_true, beq_iff_eq, bne_iff_ne] at hl
      omega
    have hcond : dayOfYear (leapYear y) m d < 365 ∨
        (dayOfYear (leapYear y) m d = 365 ∧ (y + 292277022399) % 4 = 3 ∧
          ((y + 292277022399) % 100 / 4 < 24 ∨ (y + 292277022399) % 400 / 100 = 3)) := by
      cases hl : leapYear y
      · simp only [hl] at hyd
        left
        simpa using hyd
      · simp only [hl] at hyd
        have h2 := hleap hl
        have h3 : dayOfYear true m d < 366 := by simpa using hyd
        clear hds hbound hA habs hleap
        omega
    have hsum : 400 * ((y + 292277022399) / 400) + 100 * ((y + 292277022399) % 400 / 100)
        + 4 * ((y + 292277022399) % 100 / 4) + (y + 292277022399) % 4 = y + 292277022399 := by
      have hr : (y + 292277022399) % 400 % 100 = (y + 292277022399) % 100 :=
        Nat.mod_mod_of_dvd _ (by norm_num)
      have hs : (y + 292277022399) % 100 % 4 = (y + 292277022399) % 4 :=
        Nat.mod_mod_of_dvd _ (by norm_num)
      clear hds hbound hA habs hleap hcond hmd hyd
      omega
    have hdate := absDate_of_days ((y + 292277022399) / 400) ((y + 292277022399) % 400 / 100)
      ((y + 292277022399) % 100 / 4) ((y + 292277022399) % 4) (dayOfYear (leapYear y) m d)
      (by omega) (by omega) (by omega) hcond
    rw [hsum, wrapInt64_year y hy, isLeap_natCast, hmd, ← hds] at hdate
    simp only [Time.Date, habs, hdate]
  · simp only [Time.Clock, habs, secondsPerDay, secondsPerHour, secondsPerMinute]
    simp
  · rfl

/-! ### Further lemmas on the coercions and the decoders -/

theorem isDigit_zero_iff (c : Char) (rest : List Char) :
    isDigit (c :: rest) 0 = isDecimalDigit c := by
  simp [isDigit, isDecimalDigit]

theorem isDigit_one_iff (a c : Char) (rest : List Char) :
    isDigit (a :: c :: rest) 1 = isDecimalDigit c := by
  simp [isDigit, isDecimalDigit]

theorem leadingInt_of_digit (c : Char) (rest : List Char) (x : Nat) (hx : x ≤ 1000000)
    (hc : isDecimalDigit c = true) :
    leadingInt (c :: rest) x = leadingInt rest (x * 10 + (c.toNat - 48)) := by
  have h := (isDecimalDigit_iff c).1 hc
  have h1 : ¬ (c < '0' ∨ c > '9') := by
    have e1 : ('0' : Char).toNat = 48 := rfl
    have e2 : ('9' : Char).toNat = 57 := rfl
    simp only [gt_iff_lt, Char.lt_def, not_or]
    constructor
    · show ¬ c.val < ('0' : Char).val
      have : ('0' : Char).toNat ≤ c.toNat := by omega
      exact Nat.not_lt.2 this
    · show ¬ ('9' : Char).val < c.val
      have : c.toNat ≤ ('9' : Char).toNat := by omega
      exact Nat.not_lt.2 this
  have h2 : ¬ (x > 9223372036854775808 / 10) := by omega
  have e0 : ('0' : Char).toNat = 48 := rfl
  have h3 : x * 10 + c.toNat - '0'.toNat = x * 10 + (c.toNat - 48) := by omega
  have h4 : ¬ (x * 10 + (c.toNat - 48) > 9223372036854775808) := by omega
  rw [leadingInt, if_neg h1, if_neg h2]
  simp only [h3, if_neg h4]

theorem leadingInt_of_nondigit (c : Char) (rest : List Char) (x : Nat)
    (hc : isDecimalDigit c = false) :
    leadingInt (c :: rest) x = some (x, c :: rest) := by
  have h1 : c < '0' ∨ c > '9' := by
    by_contra hn
    simp only [gt_iff_lt, not_or, not_lt] at hn
    have : isDecimalDigit c = true := by
      simp [isDecimalDigit, hn.1, hn.2]
    rw [hc] at this
    cases this
  rw [leadingInt, if_pos h1]

theorem digit_ne_sign (c : Char) (hc : isDecimalDigit c = true) : c ≠ '-' ∧ c ≠ '+' := by
  have h := (isDecimalDigit_iff c).1 hc
  constructor
  · intro e
    rw [e] at h
    have : ('-' : Char).toNat = 45 := rfl
    omega
  · intro e
    rw [e] at h
    have : ('+' : Char).toNat = 43 := rfl
    omega

theorem atoi_four_some (a b c d : Char) (y : Int) (ha : isDecimalDigit a = true)
    (h : atoi [a, b, c, d] = some y) :
    isDecimalDigit b = true ∧ isDecimalDigit c = true ∧ isDecimalDigit d = true ∧
    y = ((((a.toNat - 48) * 10 + (b.toNat - 48)) * 10 + (c.toNat - 48)) * 10
      + (d.toNat - 48) : Nat) := by
  have hs := digit_ne_sign a ha
  have hna := (isDecimalDigit_iff a).1 ha
  unfold atoi at h
  simp only [List.head?_cons, Option.some.injEq, hs.1, hs.2, or_self, if_false,
    decide_False] at h
  rw [leadingInt_of_digit a _ 0 (by norm_num) ha] at h
  cases hb : isDecimalDigit b with
  | false =>
    rw [leadingInt_of_nondigit b _ _ hb] at h
    simp at h
  | true =>
    have hnb := (isDecimalDigit_iff b).1 hb
    rw [leadingInt_of_digit b _ _ (by omega) hb] at h
    cases hc : isDecimalDigit c with
    | false =>
      rw [leadingInt_of_nondigit c _ _ hc] at h
      simp at h
    | true =>
      have hnc := (isDecimalDigit_iff c).1 hc
      rw [leadingInt_of_digit c _ _ (by omega) hc] at h
      cases hd : isDecimalDigit d with
      | false =>
        rw [leadingInt_of_nondigit d _ _ hd] at h
        simp at h
      | true =>
        have hnd := (isDecimalDigit_iff d).1 hd
        rw [leadingInt_of_digit d _ _ (by omega) hd, leadingInt] at h
        simp only [List.length_nil, gt_iff_lt, lt_self_iff_false, if_false, zero_mul,
          zero_add, Option.some.injEq] at h
        refine ⟨rfl, rfl, rfl, ?_⟩
        have hN : (((a.toNat - 48) * 10 + (b.toNat - 48)) * 10 + (c.toNat - 48)) * 10
            + (d.toNat - 48) < 10000 := by omega
        generalize (((a.toNat - 48) * 10 + (b.toNat - 48)) * 10 + (c.toNat - 48)) * 10
            + (d.toNat - 48) = N at hN h
        rw [wrapInt64_of_range (N : Int) (by omega) (by omega)] at h
        exact h.symm

theorem getnum_fixed_some (v v1 : List Char) (m : Int) (h : getnum v true = some (m, v1)) :
    ∃ e f, v = e :: f :: v1 ∧ isDecimalDigit e = true ∧ isDecimalDigit f = true ∧
      m = (((e.toNat - 48) * 10 + (f.toNat - 48) : Nat) : Int) := by
  unfold getnum at h
  cases v with
  | nil => simp [isDigit] at h
  | cons e rest =>
    cases rest with
    | nil => simp [isDigit] at h
    | cons f rest =>
      rw [isDigit_zero_iff, isDigit_one_iff] at h
      cases he : isDecimalDigit e with
      | false => simp [he] at h
      | true =>
        cases hf : isDecimalDigit f with
        | false => simp [he, hf] at h
        | true =>
          have e0 : ('0' : Char).toNat = 48 := rfl
          simp only [he, hf, Bool.not_true, Bool.false_eq_true, if_false, List.getD_cons_zero,
            List.getD_cons_succ, List.drop_succ_cons, List.drop_zero, e0, Option.some.injEq,
            Prod.mk.injEq] at h
          refine ⟨e, f, ?_, he, hf, ?_⟩
          · rw [h.2]
          · rw [← h.1]

theorem digitsValue_two (e f : Char) :
    digitsValue [e, f] = (e.toNat - 48) * 10 + (f.toNat - 48) := by
  simp [digitsValue_cons, digitsValue_nil]

theorem digitsValue_four (a b c d : Char) :
    digitsValue [a, b, c, d] =
      (((a.toNat - 48) * 10 + (b.toNat - 48)) * 10 + (c.toNat - 48)) * 10 + (d.toNat - 48) := by
  simp [digitsValue_cons, digitsValue_nil]
  ring

theorem parseYYYMMDD_found (val name : String) (h : val ≠ "") :
    (parseYYYMMDD val name).2 = true := by
  unfold parseYYYMMDD
  rw [if_neg h]
  cases time_Parse val <;> rfl

/-- Whatever time.Parse accepts under the layout 20060102 is the eight
digits of a calendar date. -/
theorem isDateString_of_time_Parse (s : String) (t : Time) (h : time_Parse s = .ok t) :
    isDateString s = true := by
  unfold time_Parse at h
  simp only [] at h
  split at h
  · cases h
  rename_i hlen
  simp only [not_or, not_lt, Bool.not_eq_true, Bool.not_eq_false'] at hlen
  obtain ⟨hl4, hd0⟩ := hlen
  rcases hv : s.data with _ | ⟨a, _ | ⟨b, _ | ⟨c, _ | ⟨d, rest⟩⟩⟩⟩
  · rw [hv] at hl4; simp at hl4
  · rw [hv] at hl4; simp at hl4
  · rw [hv] at hl4; simp at hl4
  · rw [hv] at hl4; simp at hl4
  rw [hv] at h hd0
  rw [isDigit_zero_iff] at hd0
  simp only [List.take, List.drop] at h
  split at h
  · cases h
  rename_i year hyear
  obtain ⟨hb, hc, hdd, hy⟩ := atoi_four_some a b c d year hd0 hyear
  split at h
  · cases h
  rename_i month v2 hmonth
  obtain ⟨e, f, hrest, he, hf, hm⟩ := getnum_fixed_some rest v2 month hmonth
  split at h
  · cases h
  rename_i hmr
  split at h
  · cases h
  rename_i day v3 hday
  obtain ⟨g, k, hv2, hg, hk, hdv⟩ := getnum_fixed_some v2 v3 day hday
  split at h
  · cases h
  rename_i hv3
  split at h
  · cases h
  rename_i hdr
  have hnil : v3 = [] := by
    cases v3 with
    | nil => rfl
    | cons x xs => simp at hv3
  subst hnil
  subst hv2
  subst hrest
  unfold isDateString
  rw [hv]
  simp only [List.all_cons, List.all_nil, hd0, hb, hc, hdd, he, hf, hg, hk, Bool.and_self,
    Bool.true_and, decide_eq_true_eq]
  rw [digitsValue_two e f, digitsValue_two g k, digitsValue_four a b c d]
  have hm1 : 1 ≤ (e.toNat - 48) * 10 + (f.toNat - 48) ∧
      (e.toNat - 48) * 10 + (f.toNat - 48) ≤ 12 := by
    rw [hm] at hmr
    omega
  rw [hm, hy, hdv, daysIn_natCast _ _ hm1.1 hm1.2] at hdr
  refine ⟨hm1.1, hm1.2, ?_, ?_⟩
  · omega
  · omega

theorem time_Parse_error_of_not_date (s : String) (h : isDateString s = false) :
    ∃ e, time_Parse s = .error e := by
  cases hp : time_Parse s with
  | error e => exact ⟨e, rfl⟩
  | ok t =>
    have := isDateString_of_time_Parse s t hp
    rw [h] at this
    cases this

theorem ext_time_Unix_ne (n : Int) (h1 : -9223372036854775808 ≤ n)
    (h2 : n < 9223372036854775808) (h0 : n ≠ 0) :
    (time_Unix n 0).ext ≠ (time_Unix 0 0).ext := by
  rw [time_Unix_zero_nsec, time_Unix_zero_nsec]
  simp only [unixTime, unixToInternal, wrapInt64]
  omega

theorem User_UnmarshalJSON_ok (user : User) (data : Option JSON) (res : UserJSON)
    (h : unmarshalUserJSON data = .ok res) :
    User.UnmarshalJSON user data = ({ ID := res.ID }, none) := by
  unfold User.UnmarshalJSON
  rw [h]

theorem User_UnmarshalJSON_error (user : User) (data : Option JSON) (err : JSONError)
    (h : unmarshalUserJSON data = .error err) :
    User.UnmarshalJSON user data = (user, some err) := by
  unfold User.UnmarshalJSON
  rw [h]

theorem Tag_UnmarshalJSON_error (tag : Tag) (data : Option JSON) (err : JSONError)
    (h : unmarshalTagJSON data = .error err) :
    Tag.UnmarshalJSON tag data = (tag, some err) := by
  unfold Tag.UnmarshalJSON
  rw [h]

theorem unmarshalTaskJSON_object (ms : List (String × JSON))
    (h : typeMismatch taskJSONTags ms = false) :
    unmarshalTaskJSON (some (.object ms)) = .ok (TaskJSON.ofMembers ms) := by
  simp [unmarshalTaskJSON, h]

/-! ### The envelope decoder and the client -/

theorem lastValue_append_single (ms : List (String × JSON)) (kv : String × JSON)
    (tag : String) :
    lastValue (ms ++ [kv]) tag = if keyMatches kv.1 tag then some kv.2 else lastValue ms tag := by
  simp [lastValue, List.foldl_append]

theorem foldName_of_keyMatches (k tag : String) (h : keyMatches k tag = true) :
    foldName k = foldName tag := by
  unfold keyMatches at h
  simp only [Bool.or_eq_true, beq_iff_eq] at h
  rcases h with h | h
  · rw [h]
  · exact h

theorem foldlM_append_single {α β : Type} (f : β → α → Except JSONError β) (l : List α)
    (a : α) (b r : β) (h : (l ++ [a]).foldlM f b = .ok r) :
    ∃ mid, l.foldlM f b = .ok mid ∧ f mid a = .ok r := by
  rw [List.foldlM_append] at h
  cases hm : l.foldlM f b with
  | error e =>
    rw [hm] at h
    simp [bind, Except.bind] at h
  | ok mid =>
    rw [hm] at h
    refine ⟨mid, rfl, ?_⟩
    simp only [bind, Except.bind, List.foldlM_cons, List.foldlM_nil, pure, Except.pure] at h
    cases hf : f mid a with
    | error e => rw [hf] at h; cases h
    | ok v => rw [hf] at h; exact h

theorem except_map_ok {α β : Type} (x : Except JSONError α) (f : α → β) (r : β)
    (h : x.map f = .ok r) : ∃ a, x = .ok a ∧ f a = r := by
  cases x with
  | error e => simp [Except.map] at h
  | ok a =>
    refine ⟨a, rfl, ?_⟩
    simpa [Except.map] using h

theorem ofUnmarshaler_ok {α : Type} (p : α × Option JSONError) (a : α)
    (h : ofUnmarshaler p = .ok a) : p = (a, none) := by
  rcases p with ⟨x, e⟩
  cases e with
  | none =>
    simp only [ofUnmarshaler, Except.ok.injEq] at h
    rw [h]
  | some err => simp [ofUnmarshaler] at h

/-- The element stored at index j is the decoding of the j-th element of
the array. -/
theorem decodeElems_spec (store : List APIResult) (elems : List JSON) :
    ∀ (i : Nat) (rs : List APIResult), decodeElems store i elems = .ok rs →
      rs.length = elems.length ∧
      ∀ (j : Nat) (e : JSON), elems.get? j = some e →
        ∃ r, rs.get? j = some r ∧
          decodeAPIResult (store.getD (i + j) APIResult.zero) e = .ok r := by
  induction elems with
  | nil =>
    intro i rs h
    simp only [decodeElems, Except.ok.injEq] at h
    subst h
    exact ⟨rfl, fun j e he => by simp at he⟩
  | cons e0 rest ih =>
    intro i rs h
    rw [decodeElems] at h
    cases h0 : decodeAPIResult (store.getD i APIResult.zero) e0 with
    | error err => rw [h0] at h; cases h
    | ok r0 =>
      rw [h0] at h
      simp only [] at h
      cases h1 : decodeElems store (i + 1) rest with
      | error err => rw [h1] at h; cases h
      | ok rs1 =>
        rw [h1] at h
        simp only [Except.ok.injEq] at h
        subst h
        obtain ⟨hlen, hidx⟩ := ih (i + 1) rs1 h1
        refine ⟨by simp [hlen], ?_⟩
        intro j e he
        cases j with
        | zero =>
          simp only [List.get?_cons_zero, Option.some.injEq] at he
          subst he
          exact ⟨r0, rfl, by simpa using h0⟩
        | succ j =>
          simp only [List.get?_cons_succ] at he
          obtain ⟨r, hr, hd⟩ := hidx j e he
          refine ⟨r, by simpa using hr, ?_⟩
          have : i + (j + 1) = i + 1 + j := by omega
          rw [this]
          exact hd

theorem storeResultMember_user (mid r : APIResult) (kv : String × JSON)
    (h : storeResultMember mid kv = .ok r) :
    (keyMatches kv.1 "user" = true →
      User.UnmarshalJSON mid.User (some kv.2) = (r.User, none)) ∧
    (keyMatches kv.1 "user" = false → r.User = mid.User) := by
  unfold storeResultMember at h
  by_cases h1 : keyMatches kv.1 "error" = true
  · have hf := foldName_of_keyMatches _ _ h1
    have hu : keyMatches kv.1 "user" = false := by
      cases hk : keyMatches kv.1 "user" with
      | false => rfl
      | true =>
        have := foldName_of_keyMatches _ _ hk
        rw [hf] at this
        exact absurd this (by decide)
    rw [if_pos h1] at h
    obtain ⟨a, _, ha⟩ := except_map_ok _ _ _ h
    refine ⟨fun hc => (by rw [hu] at hc; cases hc), fun _ => (by rw [← ha])⟩
  rw [if_neg h1] at h
  by_cases h2 : keyMatches kv.1 "auth" = true
  · have hf := foldName_of_keyMatches _ _ h2
    have hu : keyMatches kv.1 "user" = false := by
      cases hk : keyMatches kv.1 "user" with
      | false => rfl
      | true =>
        have := foldName_of_keyMatches _ _ hk
        rw [hf] at this
        exact absurd this (by decide)
    rw [if_pos h2] at h
    obtain ⟨a, _, ha⟩ := except_map_ok _ _ _ h
    refine ⟨fun hc => (by rw [hu] at hc; cases hc), fun _ => (by rw [← ha])⟩
  rw [if_neg h2] at h
  by_cases h3 : keyMatches kv.1 "user" = true
  · rw [if_pos h3] at h
    obtain ⟨u, hu, ha⟩ := except_map_ok _ _ _ h
    have := ofUnmarshaler_ok _ _ hu
    refine ⟨fun _ => by rw [this, ← ha], fun hc => by rw [h3] at hc; cases hc⟩
  rw [if_neg h3] at h
  refine ⟨fun hc => absurd hc h3, fun _ => ?_⟩
  by_cases h4 : keyMatches kv.1 "tag" = true
  · rw [if_pos h4] at h
    obtain ⟨a, _, ha⟩ := except_map_ok _ _ _ h
    rw [← ha]
  rw [if_neg h4] at h
  by_cases h5 : keyMatches kv.1 "task" = true
  · rw [if_pos h5] at h
    obtain ⟨a, _, ha⟩ := except_map_ok _ _ _ h
    rw [← ha]
  rw [if_neg h5] at h
  simp only [Except.ok.injEq] at h
  rw [h]

/-- The User of a decoded result comes from the last user member. -/
theorem foldlM_storeResultMember_user (ems : List (String × JSON)) :
    ∀ (cur r : APIResult) (uv : JSON), ems.foldlM storeResultMember cur = .ok r →
      lastValue ems "user" = some uv →
      ∃ prior, User.UnmarshalJSON prior (some uv) = (r.User, none) := by
  induction ems using List.reverseRecOn with
  | nil =>
    intro cur r uv _ hl
    simp [lastValue] at hl
  | append_singleton init kv ih =>
    intro cur r uv h hl
    obtain ⟨mid, hmid, hstep⟩ := foldlM_append_single _ _ _ _ _ h
    obtain ⟨hyes, hno⟩ := storeResultMember_user mid r kv hstep
    rw [lastValue_append_single] at hl
    cases hk : keyMatches kv.1 "user" with
    | true =>
      rw [hk] at hl
      simp only [if_true, Option.some.injEq] at hl
      subst hl
      exact ⟨mid.User, hyes hk⟩
    | false =>
      rw [hk] at hl
      simp only [Bool.false_eq_true, if_false] at hl
      obtain ⟨prior, hp⟩ := ih cur mid uv hmid hl
      exact ⟨prior, by rw [hno hk]; exact hp⟩

theorem User_UnmarshalJSON_object_ID (prior u : User) (ums : List (String × JSON))
    (h : User.UnmarshalJSON prior (some (.object ums)) = (u, none)) :
    u.ID = fieldString ums "id" := by
  cases hu : unmarshalUserJSON (some (.object ums)) with
  | error err =>
    rw [User_UnmarshalJSON_error prior _ err hu] at h
    simp at h
  | ok res =>
    rw [User_UnmarshalJSON_ok prior _ res hu] at h
    have hres : res = UserJSON.ofMembers ums := by
      unfold unmarshalUserJSON at hu
      simp only [] at hu
      split at hu
      · cases hu
      · injection hu with hu
        exact hu.symm
    simp only [Prod.mk.injEq, and_true] at h
    rw [← h, hres]
    rfl

theorem storeEnvelopeMember_results (st st1 : NirvanaResponse × List APIResult)
    (kv : String × JSON) (h : storeEnvelopeMember st kv = .ok st1) :
    (keyMatches kv.1 "results" = true →
      decodeResults st.2 kv.2 = .ok (st1.1.Results, st1.2)) ∧
    (keyMatches kv.1 "results" = false → st1.1.Results = st.1.Results) := by
  unfold storeEnvelopeMember at h
  by_cases h1 : keyMatches kv.1 "request" = true
  · have hf := foldName_of_keyMatches _ _ h1
    have hu : keyMatches kv.1 "results" = false := by
      cases hk : keyMatches kv.1 "results" with
      | false => rfl
      | true =>
        have := foldName_of_keyMatches _ _ hk
        rw [hf] at this
        exact absurd this (by decide)
    rw [if_pos h1] at h
    obtain ⟨a, _, ha⟩ := except_map_ok _ _ _ h
    refine ⟨fun hc => (by rw [hu] at hc; cases hc), fun _ => (by rw [← ha])⟩
  rw [if_neg h1] at h
  by_cases h2 : keyMatches kv.1 "results" = true
  · rw [if_pos h2] at h
    obtain ⟨a, ha1, ha⟩ := except_map_ok _ _ _ h
    refine ⟨fun _ => by rw [ha1, ← ha], fun hc => by rw [h2] at hc; cases hc⟩
  rw [if_neg h2] at h
  simp only [Except.ok.injEq] at h
  refine ⟨fun hc => absurd hc h2, fun _ => by rw [h]⟩

/-- The Results of a decoded envelope come from the last results member. -/
theorem foldlM_storeEnvelopeMember_results (ms : List (String × JSON)) :
    ∀ (st0 st : NirvanaResponse × List APIResult) (v : JSON),
      ms.foldlM storeEnvelopeMember st0 = .ok st → lastValue ms "results" = some v →
      ∃ store store1, decodeResults store v = .ok (st.1.Results, store1) := by
  induction ms using List.reverseRecOn with
  | nil =>
    intro st0 st v _ hl
    simp [lastValue] at hl
  | append_singleton init kv ih =>
    intro st0 st v h hl
    obtain ⟨mid, hmid, hstep⟩ := foldlM_append_single _ _ _ _ _ h
    obtain ⟨hyes, hno⟩ := storeEnvelopeMember_results mid st kv hstep
    rw [lastValue_append_single] at hl
    cases hk : keyMatches kv.1 "results" with
    | true =>
      rw [hk] at hl
      simp only [if_true, Option.some.injEq] at hl
      subst hl
      exact ⟨mid.2, st.2, hyes hk⟩
    | false =>
      rw [hk] at hl
      simp only [Bool.false_eq_true, if_false] at hl
      obtain ⟨store, store1, hp⟩ := ih st0 mid v hmid hl
      exact ⟨store, store1, by rw [hno hk]; exact hp⟩

theorem decodeResults_array (store : List APIResult) (elems : List JSON)
    (rs store1 : List APIResult) (h : decodeResults store (.array elems) = .ok (rs, store1)) :
    decodeElems store 0 elems = .ok rs := by
  cases elems with
  | nil =>
    simp only [decodeResults, Except.ok.injEq, Prod.mk.injEq] at h
    rw [← h.1]
    rfl
  | cons e rest =>
    simp only [decodeResults] at h
    obtain ⟨a, ha, hb⟩ := except_map_ok _ _ _ h
    simp only [Prod.mk.injEq] at hb
    rw [ha, hb.1]

theorem Authenticate_decoded (c : NirvanaClient) (login passwordMd5 : String)
    (httpDo : Except String HTTPResponse) (response : NirvanaResponse)
    (hdo : NirvanaClient.do_ httpDo = .returns (.ok response)) :
    NirvanaClient.Authenticate c login passwordMd5 (.ok ()) httpDo =
      match response.Results with
      | [] => .returns (c, some (.errorf "Nirvan Client error: no authentification token"))
      | r :: _ =>
        if 0 < r.Error.Code then
          .returns (c, some (.errorf
            ("Nirvana response error: " ++ fmtD r.Error.Code ++ " " ++ r.Error.Message)))
        else if r.Auth.Token ≠ "" then .returns ({ c with authToken := r.Auth.Token }, none)
        else .returns (c, some (.errorf "Nirvan Client error: no authentification token")) := by
  unfold NirvanaClient.Authenticate
  simp only [hdo]
  rcases response with ⟨req, results⟩
  cases results with
  | nil => simp [ResultError_nil, AuthToken_nil]
  | cons r rest =>
    simp only [ResultError_cons, AuthToken_cons]
    by_cases h1 : 0 < r.Error.Code
    · simp [h1, responseErrorf]
    · by_cases h2 : r.Auth.Token = ""
      · simp [h1, h2]
      · simp [h1, h2]

theorem Authenticate_error_keeps (c : NirvanaClient) (login passwordMd5 : String)
    (newRequest : Except String Unit) (httpDo : Except String HTTPResponse)
    (c1 : NirvanaClient) (err : Failure)
    (h : NirvanaClient.Authenticate c login passwordMd5 newRequest httpDo
      = .returns (c1, some err)) : c1 = c := by
  unfold NirvanaClient.Authenticate at h
  cases newRequest with
  | error e =>
    simp only [Outcome.returns.injEq, Prod.mk.injEq] at h
    exact h.1.symm
  | ok u =>
    simp only [] at h
    cases hdo : NirvanaClient.do_ httpDo with
    | exits => rw [hdo] at h; cases h
    | panics p => rw [hdo] at h; cases h
    | returns r =>
      rw [hdo] at h
      cases r with
      | error e =>
        simp only [Outcome.returns.injEq, Prod.mk.injEq] at h
        exact h.1.symm
      | ok response =>
        simp only [] at h
        rcases response with ⟨req, results⟩
        cases results with
        | nil =>
          simp only [ResultError_nil, AuthToken_nil] at h
          simp at h
          exact h.1.symm
        | cons r rest =>
          simp only [ResultError_cons, AuthToken_cons] at h
          by_cases h1 : 0 < r.Error.Code
          · simp [h1, responseErrorf] at h
            exact h.1.symm
          · by_cases h2 : r.Auth.Token = ""
            · simp [h1, h2] at h
              exact h.1.symm
            · simp [h1, h2] at h

theorem tdiv_hundred_eq_two (s : Int) : Int.tdiv s 100 = 2 ↔ (200 ≤ s ∧ s ≤ 299) := by
  by_cases h : 0 ≤ s
  · rw [Int.tdiv_eq_ediv h (by norm_num)]
    omega
  · have hneg : s = -(-s) := by omega
    have h1 : Int.tdiv s 100 = -((-s) / 100) := by
      rw [← Int.tdiv_eq_ediv (by omega) (by norm_num), ← Int.neg_tdiv]
      simp
    rw [h1]
    omega

/-! ## The envelope queries -/

/-- C1, as the claim states it, fails: on a response whose first result has
the nonzero error code -1, ResultError returns nil. -/
theorem ResultError_nonzero_counterexample :
    ¬ ((∃ text, negativeCodeResponse.ResultError = .ok (some text)) ↔
        ∃ r rest, negativeCodeResponse.Results = r :: rest ∧ r.Error.Code ≠ 0) := by
  intro h
  have h1 : ∃ r rest, negativeCodeResponse.Results = r :: rest ∧ r.Error.Code ≠ 0 :=
    ⟨_, _, rfl, by decide⟩
  obtain ⟨text, ht⟩ := h.2 h1
  have h2 : negativeCodeResponse.ResultError = .ok none := by decide
  rw [h2] at ht
  cases ht

/-- C1 (amended): ResultError never panics; it returns a non-nil error
exactly when Results is non-empty and the first result's Error.Code is
positive, and nil otherwise (a zero or negative code gives nil); the error
text is "Nirvana response error: " followed by the code in decimal, a blank
and the message, so that code 1401 with message "bad auth" gives
"Nirvana response error: 1401 bad auth". -/
theorem ResultError_spec :
    (∀ p : NirvanaResponse, ∃ e : GoError, p.ResultError = .ok e ∧
      (e ≠ none ↔ ∃ r rest, p.Results = r :: rest ∧ 0 < r.Error.Code) ∧
      (∀ r rest, p.Results = r :: rest → 0 < r.Error.Code →
        e = some ("Nirvana response error: " ++ fmtD r.Error.Code ++ " " ++ r.Error.Message))) ∧
    badAuthResponse.ResultError = .ok (some "Nirvana response error: 1401 bad auth") := by
  refine ⟨?_, by decide⟩
  rintro ⟨req, results⟩
  cases results with
  | nil =>
    refine ⟨none, ResultError_nil req, ?_, ?_⟩
    · simp
    · intro r rest h; cases h
  | cons r rest =>
    refine ⟨_, ResultError_cons req r rest, ?_, ?_⟩
    · by_cases h : 0 < r.Error.Code
      · simp [h, responseErrorf]
      · simp [h]
    · intro r1 rest1 h hpos
      simp only [List.cons.injEq] at h
      obtain ⟨rfl, rfl⟩ := h
      simp [hpos, responseErrorf]

/-- C2: AuthToken never panics; it returns (t, true) exactly when Results is
non-empty and the first result's Auth.Token is a non-empty string, t being
that token, and ("", false) in every other case. -/
theorem AuthToken_spec (p : NirvanaResponse) :
    ∃ t found, p.AuthToken = .ok (t, found) ∧
      (found = true ↔ ∃ r rest, p.Results = r :: rest ∧ r.Auth.Token ≠ "") ∧
      (∀ r rest, p.Results = r :: rest → r.Auth.Token ≠ "" → t = r.Auth.Token) ∧
      (found = false → t = "") := by
  rcases p with ⟨req, results⟩
  cases results with
  | nil =>
    refine ⟨"", false, AuthToken_nil req, by simp, ?_, fun _ => rfl⟩
    intro r rest h; cases h
  | cons r rest =>
    by_cases h : r.Auth.Token ≠ ""
    · refine ⟨r.Auth.Token, true, ?_, ?_, ?_, by simp⟩
      · rw [AuthToken_cons]; simp [h]
      · simp [h]
      · intro r1 rest1 h1 _
        simp only [List.cons.injEq] at h1
        rw [h1.1]
    · refine ⟨"", false, ?_, ?_, ?_, fun _ => rfl⟩
      · rw [AuthToken_cons]; simp [h]
      · simpa using h
      · intro r1 rest1 h1 h2
        simp only [List.cons.injEq] at h1
        rw [← h1.1] at h2
        exact absurd h2 h

/-- C3: ResultError and AuthToken consult only the first element of Results:
two responses whose Results are both empty or start with the same element
get the same outcome from both queries; a first result with error code 0 and
an empty token gives no error and no token whatever the later results carry,
as on a response whose second result has code 500 and token "abc123". -/
theorem first_result_only :
    (∀ p q : NirvanaResponse, p.Results.head? = q.Results.head? →
      p.ResultError = q.ResultError ∧ p.AuthToken = q.AuthToken) ∧
    (∀ (req : APIRequest) (r : APIResult) (rest : List APIResult),
      r.Error.Code = 0 → r.Auth.Token = "" →
      NirvanaResponse.ResultError { Request := req, Results := r :: rest } = .ok none ∧
      NirvanaResponse.AuthToken { Request := req, Results := r :: rest } = .ok ("", false)) ∧
    (laterErrorResponse.ResultError = .ok none ∧
      laterErrorResponse.AuthToken = .ok ("", false)) := by
  refine ⟨?_, ?_, ?_⟩
  · rintro ⟨reqp, rp⟩ ⟨reqq, rq⟩ h
    cases rp with
    | nil =>
      cases rq with
      | nil => simp [ResultError_nil, AuthToken_nil]
      | cons b bs => simp at h
    | cons a as =>
      cases rq with
      | nil => simp at h
      | cons b bs =>
        simp only [List.head?_cons, Option.some.injEq] at h
        subst h
        simp [ResultError_cons, AuthToken_cons]
  · intro req r rest hc ht
    rw [ResultError_cons, AuthToken_cons]
    simp [hc, ht]
  · have h1 := ResultError_cons APIRequest.zero APIResult.zero (laterErrorResponse.Results.tail)
    have h2 := AuthToken_cons APIRequest.zero APIResult.zero (laterErrorResponse.Results.tail)
    refine ⟨?_, ?_⟩
    · exact h1.trans (by decide)
    · exact h2.trans (by decide)

/-! ## The decoders -/

/-- C4: decoding a task object whose members are all strings returns no
error and sets IsCompleted exactly when the raw completed string is not
"0", IsDeleted exactly when the raw deleted string is not "0", and, when the
raw deleted string denotes an integer n of the int64 range, Deleted to
time.Unix(n, 0), the instant n seconds after the Unix epoch. -/
theorem Task_UnmarshalJSON_flags (task : Task) (ms : List (String × JSON))
    (h : ∀ kv ∈ ms, ∃ s, kv.2 = JSON.string s) :
    (Task.UnmarshalJSON task (some (.object ms))).2 = none ∧
    ((Task.UnmarshalJSON task (some (.object ms))).1.IsCompleted = true ↔
      fieldString ms "completed" ≠ "0") ∧
    ((Task.UnmarshalJSON task (some (.object ms))).1.IsDeleted = true ↔
      fieldString ms "deleted" ≠ "0") ∧
    (∀ n : Int, decimalValue (fieldString ms "deleted") = some n →
      -9223372036854775808 ≤ n → n < 9223372036854775808 →
      (Task.UnmarshalJSON task (some (.object ms))).1.Deleted = time_Unix n 0 ∧
      (Task.UnmarshalJSON task (some (.object ms))).1.Deleted.Unix = n) := by
  rw [Task_UnmarshalJSON_ok task _ _ (unmarshalTaskJSON_strings ms h)]
  refine ⟨rfl, ?_, ?_, ?_⟩
  · simp [TaskJSON.ofMembers]
  · simp [TaskJSON.ofMembers]
  · intro n hn h1 h2
    have hv : strInt64 (fieldString ms "deleted") 0 "task.deleted" = n := by
      rw [strInt64_spec, hn]
      simp [h1, h2]
    have hD : strUnixTime (TaskJSON.ofMembers ms).Deleted 0 "task.deleted" = time_Unix n 0 := by
      simp only [TaskJSON.ofMembers, strUnixTime, hv]
    refine ⟨hD, ?_⟩
    show (strUnixTime (TaskJSON.ofMembers ms).Deleted 0 "task.deleted").Unix = n
    rw [hD]
    exact Unix_time_Unix n h1 h2

/-- C4 at the object with completed "0" and deleted "1700000000" decoded
into a fresh Task: IsCompleted is false, IsDeleted is true and Deleted is
the instant 1700000000 seconds after the epoch. -/
theorem Task_UnmarshalJSON_flags_witness :
    (Task.UnmarshalJSON Task.zero (some (.object completedDeletedTask))).2 = none ∧
    (Task.UnmarshalJSON Task.zero (some (.object completedDeletedTask))).1.IsCompleted = false ∧
    (Task.UnmarshalJSON Task.zero (some (.object completedDeletedTask))).1.IsDeleted = true ∧
    (Task.UnmarshalJSON Task.zero (some (.object completedDeletedTask))).1.Deleted.Unix
      = 1700000000 := by
  have hs : ∀ kv ∈ completedDeletedTask, ∃ s, kv.2 = JSON.string s := by
    simp [completedDeletedTask]
  have hc : fieldString completedDeletedTask "completed" = "0" := by decide
  have hd : fieldString completedDeletedTask "deleted" = "1700000000" := by decide
  have hv : decimalValue "1700000000" = some 1700000000 := by decide
  obtain ⟨h1, h2, h3, h4⟩ := Task_UnmarshalJSON_flags Task.zero completedDeletedTask hs
  refine ⟨h1, ?_, ?_, ?_⟩
  · rw [hc] at h2
    simpa using h2
  · rw [hd] at h3
    exact h3.2 (by decide)
  · rw [hd] at h4
    exact (h4 1700000000 hv (by norm_num) (by norm_num)).2

/-- C5, as the claim states it, fails: on a tag object whose raw type is
"0" and whose color is a number json.Unmarshal reports a type error,
Tag.UnmarshalJSON returns it before any field is assigned, and the Type of
a fresh receiver stays empty instead of becoming Context. -/
theorem Tag_UnmarshalJSON_type_counterexample :
    fieldString tagWithNumberColor "type" = "0" ∧
    (Tag.UnmarshalJSON Tag.zero (some (.object tagWithNumberColor))).2
      = some .UnmarshalTypeError ∧
    (Tag.UnmarshalJSON Tag.zero (some (.object tagWithNumberColor))).1.Type_ ≠ Context ∧
    (Tag.UnmarshalJSON Tag.zero (some (.object tagWithNumberColor))).1 = Tag.zero := by
  decide

/-- C5 (amended): decoding a tag object that decodes without error (no member
of a field holds a value other than a string or null) returns no error; a raw
type "0" yields Type = Context ("2") whatever the raw deleted field is, any
other raw type is kept unchanged, so the decoded Type is never "0"; Key,
Email, Color and Meta are the raw strings. -/
theorem Tag_UnmarshalJSON_type (tag : Tag) (ms : List (String × JSON))
    (h : typeMismatch tagJSONTags ms = false) :
    (Tag.UnmarshalJSON tag (some (.object ms))).2 = none ∧
    (fieldString ms "type" = "0" →
      (Tag.UnmarshalJSON tag (some (.object ms))).1.Type_ = Context) ∧
    (fieldString ms "type" ≠ "0" →
      (Tag.UnmarshalJSON tag (some (.object ms))).1.Type_ = fieldString ms "type") ∧
    (Tag.UnmarshalJSON tag (some (.object ms))).1.Type_ ≠ "0" ∧
    (Tag.UnmarshalJSON tag (some (.object ms))).1.Key = fieldString ms "key" ∧
    (Tag.UnmarshalJSON tag (some (.object ms))).1.Email = fieldString ms "email" ∧
    (Tag.UnmarshalJSON tag (some (.object ms))).1.Color = fieldString ms "color" ∧
    (Tag.UnmarshalJSON tag (some (.object ms))).1.Meta = fieldString ms "meta" := by
  rw [Tag_UnmarshalJSON_ok tag _ _ (unmarshalTagJSON_object ms h)]
  refine ⟨rfl, ?_, ?_, ?_, rfl, rfl, rfl, rfl⟩
  · intro h0
    simp [TagJSON.ofMembers, h0]
  · intro h0
    simp [TagJSON.ofMembers, h0]
  · by_cases h0 : fieldString ms "type" = "0"
    · simp only [TagJSON.ofMembers, h0, if_true]
      decide
    · simp only [TagJSON.ofMembers, h0, if_false]
      exact h0

/-- C5 at a tag object with type "0" and a deletion time, decoded into a
fresh Tag: the Type is Context and the Key is kept. -/
theorem Tag_UnmarshalJSON_type_witness :
    (Tag.UnmarshalJSON Tag.zero (some (.object legacyTag))).2 = none ∧
    (Tag.UnmarshalJSON Tag.zero (some (.object legacyTag))).1.Type_ = "2" ∧
    (Tag.UnmarshalJSON Tag.zero (some (.object legacyTag))).1.Key = "home" ∧
    (Tag.UnmarshalJSON Tag.zero (some (.object legacyTag))).1.IsDeleted = true := by
  have hm : typeMismatch tagJSONTags legacyTag = false := by decide
  obtain ⟨h1, h2, _, _, h5, _⟩ := Tag_UnmarshalJSON_type Tag.zero legacyTag hm
  refine ⟨h1, h2 (by decide), ?_, by decide⟩
  rw [h5]
  decide

/-- C6 fails on the code: a tag object without a deleted member decodes to
Deleted = the epoch-zero instant (Unix 0, equal to noDate) together with
IsDeleted = true; so does a deleted member "00". -/
theorem Tag_UnmarshalJSON_deleted_absent :
    (Tag.UnmarshalJSON Tag.zero (some (.object tagWithoutDeleted))).2 = none ∧
    (Tag.UnmarshalJSON Tag.zero (some (.object tagWithoutDeleted))).1.IsDeleted = true ∧
    (Tag.UnmarshalJSON Tag.zero (some (.object tagWithoutDeleted))).1.Deleted = noDate ∧
    (Tag.UnmarshalJSON Tag.zero (some (.object tagWithoutDeleted))).1.Deleted.Unix = 0 ∧
    (Tag.UnmarshalJSON Tag.zero (some (.object [("deleted", .string "00")]))).1.IsDeleted
      = true ∧
    (Tag.UnmarshalJSON Tag.zero (some (.object [("deleted", .string "00")]))).1.Deleted.Unix
      = 0 := by
  decide

/-- C7, as the claim states it, fails: a task object without startdate and
duedate members, decoded into a fresh Task, leaves Startdate and Duedate at
the zero time.Time, which is not noDate and not the instant Unix 0. -/
theorem Task_UnmarshalJSON_nodate_counterexample :
    (∀ kv ∈ taskWithoutDates, keyMatches kv.1 "startdate" = false) ∧
    (Task.UnmarshalJSON Task.zero (some (.object taskWithoutDates))).2 = none ∧
    (Task.UnmarshalJSON Task.zero (some (.object taskWithoutDates))).1.Startdate ≠ noDate ∧
    (Task.UnmarshalJSON Task.zero (some (.object taskWithoutDates))).1.Startdate.Unix ≠ 0 ∧
    Time.Equal (Task.UnmarshalJSON Task.zero (some (.object taskWithoutDates))).1.Startdate
      noDate = false ∧
    (Task.UnmarshalJSON Task.zero (some (.object taskWithoutDates))).1.Duedate.Unix ≠ 0 := by
  decide

/-- C7 (amended): when the startdate (respectively duedate) member of a task
object is absent or the empty string, Task.UnmarshalJSON leaves Startdate
(respectively Duedate) at the value the receiver held before the call. -/
theorem Task_UnmarshalJSON_dates_kept (task : Task) (ms : List (String × JSON)) :
    (fieldString ms "startdate" = "" →
      (Task.UnmarshalJSON task (some (.object ms))).1.Startdate = task.Startdate) ∧
    (fieldString ms "duedate" = "" →
      (Task.UnmarshalJSON task (some (.object ms))).1.Duedate = task.Duedate) ∧
    ((∀ kv ∈ ms, keyMatches kv.1 "startdate" = false) →
      (Task.UnmarshalJSON task (some (.object ms))).1.Startdate = task.Startdate) ∧
    ((∀ kv ∈ ms, keyMatches kv.1 "duedate" = false) →
      (Task.UnmarshalJSON task (some (.object ms))).1.Duedate = task.Duedate) := by
  have key : (fieldString ms "startdate" = "" →
      (Task.UnmarshalJSON task (some (.object ms))).1.Startdate = task.Startdate) ∧
    (fieldString ms "duedate" = "" →
      (Task.UnmarshalJSON task (some (.object ms))).1.Duedate = task.Duedate) := by
    cases hu : unmarshalTaskJSON (some (.object ms)) with
    | error err =>
      rw [Task_UnmarshalJSON_error task _ err hu]
      exact ⟨fun _ => rfl, fun _ => rfl⟩
    | ok res =>
      have hres : res = TaskJSON.ofMembers ms := by
        unfold unmarshalTaskJSON at hu
        simp only [] at hu
        split at hu
        · cases hu
        · injection hu with hu
          exact hu.symm
      rw [Task_UnmarshalJSON_ok task _ res hu, hres]
      refine ⟨?_, ?_⟩
      · intro h0
        simp [TaskJSON.ofMembers, h0, parseYYYMMDD_empty]
      · intro h0
        simp [TaskJSON.ofMembers, h0, parseYYYMMDD_empty]
  exact ⟨key.1, key.2, fun h => key.1 (fieldString_absent ms _ h),
    fun h => key.2 (fieldString_absent ms _ h)⟩

/-- C8, as the claim states it, fails: "9223372036854775808" is a numeral,
it denotes 2^63, and strInt64 returns the default instead. -/
theorem strInt64_numeral_counterexample :
    decimalValue "9223372036854775808" = some 9223372036854775808 ∧
    strInt64 "9223372036854775808" 7 "task.seq" = 7 ∧
    strInt64 "9223372036854775808" 7 "task.seq" ≠ 9223372036854775808 := by
  decide

/-- C8 (amended): strInt64 of the empty string is the default; of a string
that is no decimal numeral (optional sign, then one or more digits) the
default; of a numeral whose value fits int64 that value; of a numeral whose
value is outside the int64 range the default. -/
theorem strInt64_decimal :
    (∀ (d : Int) (name : String), strInt64 "" d name = d) ∧
    (∀ (val : String) (d : Int) (name : String),
      decimalValue val = none → strInt64 val d name = d) ∧
    (∀ (val : String) (d : Int) (name : String) (v : Int), decimalValue val = some v →
      -9223372036854775808 ≤ v → v < 9223372036854775808 → strInt64 val d name = v) ∧
    (∀ (val : String) (d : Int) (name : String) (v : Int), decimalValue val = some v →
      (v < -9223372036854775808 ∨ 9223372036854775808 ≤ v) → strInt64 val d name = d) ∧
    (strInt64 "-42" 0 "task.seq" = -42 ∧ strInt64 "+7" 0 "task.seq" = 7 ∧
      strInt64 "12a" 5 "task.seq" = 5) := by
  refine ⟨?_, ?_, ?_, ?_, by decide⟩
  · intro d name
    simp [strInt64]
  · intro val d name h
    rw [strInt64_spec, h]
  · intro val d name v h h1 h2
    rw [strInt64_spec, h]
    simp [h1, h2]
  · intro val d name v h h1
    rw [strInt64_spec, h]
    have : ¬ (-9223372036854775808 ≤ v ∧ v < 9223372036854775808) := by omega
    simp [this]

/-- C9: decoding a task object whose members are all strings, whatever
their content, returns no error; each of Seq, Seqp, Etime and Energy is 0
when its raw string is no valid int64 numeral and the denoted integer
otherwise; the string fields are copied from the raw strings. -/
theorem Task_UnmarshalJSON_bad_scalars (task : Task) (ms : List (String × JSON))
    (h : ∀ kv ∈ ms, ∃ s, kv.2 = JSON.string s) :
    (Task.UnmarshalJSON task (some (.object ms))).2 = none ∧
    ((Task.UnmarshalJSON task (some (.object ms))).1.Seq
        = (int64Value (fieldString ms "seq")).getD 0 ∧
      (Task.UnmarshalJSON task (some (.object ms))).1.Seqp
        = (int64Value (fieldString ms "seqp")).getD 0 ∧
      (Task.UnmarshalJSON task (some (.object ms))).1.Etime
        = (int64Value (fieldString ms "etime")).getD 0 ∧
      (Task.UnmarshalJSON task (some (.object ms))).1.Energy
        = (int64Value (fieldString ms "energy")).getD 0) ∧
    ((int64Value (fieldString ms "seq") = none →
        (Task.UnmarshalJSON task (some (.object ms))).1.Seq = 0) ∧
      (int64Value (fieldString ms "seqp") = none →
        (Task.UnmarshalJSON task (some (.object ms))).1.Seqp = 0) ∧
      (int64Value (fieldString ms "etime") = none →
        (Task.UnmarshalJSON task (some (.object ms))).1.Etime = 0) ∧
      (int64Value (fieldString ms "energy") = none →
        (Task.UnmarshalJSON task (some (.object ms))).1.Energy = 0)) ∧
    ((Task.UnmarshalJSON task (some (.object ms))).1.ID = fieldString ms "id" ∧
      (Task.UnmarshalJSON task (some (.object ms))).1.Type_ = fieldString ms "type" ∧
      (Task.UnmarshalJSON task (some (.object ms))).1.State = fieldString ms "state" ∧
      (Task.UnmarshalJSON task (some (.object ms))).1.ParentID = fieldString ms "parentid" ∧
      (Task.UnmarshalJSON task (some (.object ms))).1.Name = fieldString ms "name" ∧
      (Task.UnmarshalJSON task (some (.object ms))).1.Tags = fieldString ms "tags" ∧
      (Task.UnmarshalJSON task (some (.object ms))).1.Waitingfor
        = fieldString ms "waitingfor" ∧
      (Task.UnmarshalJSON task (some (.object ms))).1.Recurring
        = fieldString ms "recurring" ∧
      (Task.UnmarshalJSON task (some (.object ms))).1.Note = fieldString ms "note") := by
  rw [Task_UnmarshalJSON_ok task _ _ (unmarshalTaskJSON_strings ms h)]
  have e1 := strInt64_int64Value (fieldString ms "seq") 0 "task.seq"
  have e2 := strInt64_int64Value (fieldString ms "seqp") 0 "task.seqp"
  have e3 := strInt64_int64Value (fieldString ms "etime") 0 "task.etime"
  have e4 := strInt64_int64Value (fieldString ms "energy") 0 "task.energy"
  refine ⟨rfl, ⟨e1, e2, e3, e4⟩, ⟨?_, ?_, ?_, ?_⟩, ⟨rfl, rfl, rfl, rfl, rfl, rfl, rfl, rfl, rfl⟩⟩
  · intro h0
    show strInt64 (fieldString ms "seq") 0 "task.seq" = 0
    rw [e1, h0]; rfl
  · intro h0
    show strInt64 (fieldString ms "seqp") 0 "task.seqp" = 0
    rw [e2, h0]; rfl
  · intro h0
    show strInt64 (fieldString ms "etime") 0 "task.etime" = 0
    rw [e3, h0]; rfl
  · intro h0
    show strInt64 (fieldString ms "energy") 0 "task.energy" = 0
    rw [e4, h0]; rfl

/-- C9 at a task object whose seq is "not-a-number", decoded into a fresh
Task: no error, Seq is 0, Seqp is 7 and the name is kept. -/
theorem Task_UnmarshalJSON_bad_scalars_witness :
    (Task.UnmarshalJSON Task.zero (some (.object taskWithBadSeq))).2 = none ∧
    (Task.UnmarshalJSON Task.zero (some (.object taskWithBadSeq))).1.Seq = 0 ∧
    (Task.UnmarshalJSON Task.zero (some (.object taskWithBadSeq))).1.Seqp = 7 ∧
    (Task.UnmarshalJSON Task.zero (some (.object taskWithBadSeq))).1.Name = "call" := by
  have hs : ∀ kv ∈ taskWithBadSeq, ∃ s, kv.2 = JSON.string s := by
    simp [taskWithBadSeq]
  obtain ⟨h1, ⟨_, h2, _, _⟩, ⟨h3, _, _, _⟩, ⟨_, _, _, _, h4, _⟩⟩ :=
    Task_UnmarshalJSON_bad_scalars Task.zero taskWithBadSeq hs
  refine ⟨h1, h3 (by decide), ?_, ?_⟩
  · rw [h2]; decide
  · rw [h4]; decide

/-! ## Calendar dates -/

/-- For every valid calendar date (year 0 to 9999, month 1 to 12, day valid
for that month and year), parseYYYMMDD of its eight digits YYYYMMDD
returns (date, true), where date is time.Date(year, month, day, 0, 0, 0, 0,
UTC): a Time in UTC whose Date() is exactly that year, month and day and
whose clock reads 00:00:00 with no nanoseconds. -/
theorem parseYYYMMDD_yyyymmdd (y m d : Nat) (name : String) (hy : y ≤ 9999) (hm1 : 1 ≤ m)
    (hm : m ≤ 12) (hd1 : 1 ≤ d) (hd : d ≤ daysInMonth y m) :
    parseYYYMMDD (yyyymmdd y m d) name = (Date y m d 0 0 0 0, true) ∧
    (parseYYYMMDD (yyyymmdd y m d) name).1.loc = .UTC ∧
    (parseYYYMMDD (yyyymmdd y m d) name).1.Date = ((y : Int), m, d) ∧
    (parseYYYMMDD (yyyymmdd y m d) name).1.Clock = (0, 0, 0) ∧
    (parseYYYMMDD (yyyymmdd y m d) name).1.Nanosecond = 0 := by
  have hp : parseYYYMMDD (yyyymmdd y m d) name = (Date y m d 0 0 0 0, true) := by
    rw [parseYYYMMDD, if_neg (yyyymmdd_ne_empty y m d), time_Parse_yyyymmdd y m d hm1 hm hd1 hd hy]
  rw [hp]
  exact ⟨rfl, Date_midnight_fields y m d hm1 hm hd1 hd hy⟩

theorem digitChar_of_digit (c : Char) (hc : isDecimalDigit c = true) :
    digitChar (c.toNat - 48) = c := by
  have h := (isDecimalDigit_iff c).1 hc
  have hc2 : Char.ofNat c.toNat = c := Char.ofNat_toNat c
  obtain ⟨k, hk, hk10⟩ : ∃ k, c.toNat = 48 + k ∧ k < 10 := ⟨c.toNat - 48, by omega, by omega⟩
  rw [hk] at hc2
  rw [hk, ← hc2]
  have e : 48 + k - 48 = k := by omega
  rw [e]
  interval_cases k <;> rfl

theorem digitChar_add_mul (q k : Nat) : digitChar (q * 10 + k) = digitChar k := by
  unfold digitChar
  have : (q * 10 + k) % 10 = k % 10 := by omega
  rw [this]

/-- A date string is the eight digits of the year, the month and the day
that its digits denote. -/
theorem yyyymmdd_of_isDateString (s : String) (h : isDateString s = true) :
    s = yyyymmdd (digitsValue (s.data.take 4)) (digitsValue ((s.data.drop 4).take 2))
        (digitsValue (s.data.drop 6)) ∧
    digitsValue (s.data.take 4) ≤ 9999 ∧
    1 ≤ digitsValue ((s.data.drop 4).take 2) ∧ digitsValue ((s.data.drop 4).take 2) ≤ 12 ∧
    1 ≤ digitsValue (s.data.drop 6) ∧
    digitsValue (s.data.drop 6) ≤
      daysInMonth (digitsValue (s.data.take 4)) (digitsValue ((s.data.drop 4).take 2)) := by
  unfold isDateString at h
  rcases hv : s.data with _ | ⟨a, _ | ⟨b, _ | ⟨c, _ | ⟨d, _ | ⟨e, _ | ⟨f, _ | ⟨g, _ | ⟨k, _ | ⟨x, rest⟩⟩⟩⟩⟩⟩⟩⟩⟩
  all_goals rw [hv] at h
  all_goals try (simp at h; done)
  simp only [List.all_cons, List.all_nil, Bool.and_true, Bool.and_eq_true, decide_eq_true_eq] at h
  obtain ⟨⟨ha, hb, hc, hd, he, hf, hg, hk⟩, hm1, hm, hd1, hdm⟩ := h
  simp only [List.take, List.drop]
  have na := (isDecimalDigit_iff a).1 ha
  have nb := (isDecimalDigit_iff b).1 hb
  have nc := (isDecimalDigit_iff c).1 hc
  have nd := (isDecimalDigit_iff d).1 hd
  have ne := (isDecimalDigit_iff e).1 he
  have nf := (isDecimalDigit_iff f).1 hf
  have ng := (isDecimalDigit_iff g).1 hg
  have nk := (isDecimalDigit_iff k).1 hk
  refine ⟨?_, ?_, hm1, hm, hd1, hdm⟩
  · have hs : s = ⟨s.data⟩ := rfl
    rw [hs, hv]
    rw [digitsValue_four, digitsValue_two, digitsValue_two]
    unfold yyyymmdd
    congr 1
    have y1 : ((((a.toNat - 48) * 10 + (b.toNat - 48)) * 10 + (c.toNat - 48)) * 10
        + (d.toNat - 48)) / 1000 = a.toNat - 48 := by omega
    have y2 : ((((a.toNat - 48) * 10 + (b.toNat - 48)) * 10 + (c.toNat - 48)) * 10
        + (d.toNat - 48)) / 100 = (a.toNat - 48) * 10 + (b.toNat - 48) := by omega
    have y3 : ((((a.toNat - 48) * 10 + (b.toNat - 48)) * 10 + (c.toNat - 48)) * 10
        + (d.toNat - 48)) / 10 = ((a.toNat - 48) * 10 + (b.toNat - 48)) * 10 + (c.toNat - 48) := by
      omega
    have m1 : ((e.toNat - 48) * 10 + (f.toNat - 48)) / 10 = e.toNat - 48 := by omega
    have d1 : ((g.toNat - 48) * 10 + (k.toNat - 48)) / 10 = g.toNat - 48 := by omega
    rw [y1, y2, y3, m1, d1]
    simp only [digitChar_add_mul, digitChar_of_digit, ha, hb, hc, hd, he, hf, hg, hk]
  · rw [digitsValue_four]
    omega

/-- C10: for every string s that is the eight digits YYYYMMDD of a valid
calendar date (four digits of a year, month 01 to 12, day valid for that
month and year), parseYYYMMDD(s, name) returns (date, true), where date is
time.Date(year, month, day, 0, 0, 0, 0, UTC) for the year, month and day
the digits denote: a Time in UTC whose Date() is exactly that year, month
and day and whose clock reads 00:00:00 with no nanoseconds. -/
theorem parseYYYMMDD_valid (s name : String) (h : isDateString s = true) :
    parseYYYMMDD s name =
      (Date (digitsValue (s.data.take 4)) (digitsValue ((s.data.drop 4).take 2))
        (digitsValue (s.data.drop 6)) 0 0 0 0, true) ∧
    (parseYYYMMDD s name).1.loc = .UTC ∧
    (parseYYYMMDD s name).1.Date =
      ((digitsValue (s.data.take 4) : Int), digitsValue ((s.data.drop 4).take 2),
        digitsValue (s.data.drop 6)) ∧
    (parseYYYMMDD s name).1.Clock = (0, 0, 0) ∧
    (parseYYYMMDD s name).1.Nanosecond = 0 := by
  obtain ⟨hs, hy, hm1, hm, hd1, hd⟩ := yyyymmdd_of_isDateString s h
  have key := parseYYYMMDD_yyyymmdd (digitsValue (s.data.take 4))
    (digitsValue ((s.data.drop 4).take 2)) (digitsValue (s.data.drop 6)) name hy hm1 hm hd1 hd
  rw [← hs] at key
  exact key

/-- C10 at February 29 of the leap year 2024: the string "20240229" parses
to midnight UTC of 2024-02-29, the instant Unix 1709164800. -/
theorem parseYYYMMDD_valid_witness :
    isDateString "20240229" = true ∧
    (parseYYYMMDD "20240229" "task.duedate").2 = true ∧
    (parseYYYMMDD "20240229" "task.duedate").1.Date = (2024, 2, 29) ∧
    (parseYYYMMDD "20240229" "task.duedate").1.Clock = (0, 0, 0) ∧
    (parseYYYMMDD "20240229" "task.duedate").1.loc = .UTC ∧
    (parseYYYMMDD "20240229" "task.duedate").1.Unix = 1709164800 := by
  have hs : isDateString "20240229" = true := by decide
  obtain ⟨h1, h2, h3, h4, _⟩ := parseYYYMMDD_valid "20240229" "task.duedate" hs
  refine ⟨hs, by rw [h1], ?_, h4, h2, by decide⟩
  rw [h3]
  decide

/-- C11: parseYYYMMDD of the empty string is (noDate, false); of every
non-empty string the present flag is true; and of a non-empty string that
is not the eight digits of a calendar date (time.Parse fails on it) the
result is (noDate, true). -/
theorem parseYYYMMDD_sentinel :
    (∀ name : String, parseYYYMMDD "" name = (noDate, false)) ∧
    (∀ s name : String, s ≠ "" → (parseYYYMMDD s name).2 = true) ∧
    (∀ s name : String, s ≠ "" → isDateString s = false →
      parseYYYMMDD s name = (noDate, true)) ∧
    (∀ (s name : String) (e : ParseError), s ≠ "" → time_Parse s = .error e →
      parseYYYMMDD s name = (noDate, true)) ∧
    (parseYYYMMDD "tomorrow" "task.duedate" = (noDate, true) ∧
      parseYYYMMDD "20230229" "task.duedate" = (noDate, true) ∧
      parseYYYMMDD "2024-02-29" "task.duedate" = (noDate, true)) := by
  refine ⟨parseYYYMMDD_empty, parseYYYMMDD_found, ?_, ?_, by decide⟩
  · intro s name hs hd
    obtain ⟨e, he⟩ := time_Parse_error_of_not_date s hd
    rw [parseYYYMMDD, if_neg hs, he]
  · intro s name e hs he
    rw [parseYYYMMDD, if_neg hs, he]

/-- C12: strUnixTime("0", 0, name) is the sentinel noDate, the instant 0
seconds after the Unix epoch; for every string raw that denotes a nonzero
int64 n, strUnixTime(raw, 0, name) is time.Unix(n, 0), the instant n seconds
after the epoch, and it differs from the sentinel both as a value and as an
instant (Time.Equal). -/
theorem strUnixTime_sentinel (raw name : String) (n : Int)
    (hraw : int64Value raw = some n) (hn : n ≠ 0) :
    strUnixTime "0" 0 name = noDate ∧ (strUnixTime "0" 0 name).Unix = 0 ∧
    strUnixTime raw 0 name = time_Unix n 0 ∧ (strUnixTime raw 0 name).Unix = n ∧
    strUnixTime raw 0 name ≠ strUnixTime "0" 0 name ∧
    Time.Equal (strUnixTime raw 0 name) (strUnixTime "0" 0 name) = false := by
  have hrange : -9223372036854775808 ≤ n ∧ n < 9223372036854775808 := by
    unfold int64Value at hraw
    split at hraw
    · split at hraw
      · rename_i v _ h
        injection hraw with hraw
        subst hraw
        exact h
      · cases hraw
    · cases hraw
  have h0 : strInt64 "0" 0 name = 0 := by
    rw [strInt64_int64Value]
    decide
  have hv : strInt64 raw 0 name = n := by
    rw [strInt64_int64Value, hraw]
    rfl
  have hext := ext_time_Unix_ne n hrange.1 hrange.2 hn
  refine ⟨?_, ?_, ?_, ?_, ?_, ?_⟩
  · simp only [strUnixTime, h0, noDate]
  · simp only [strUnixTime, h0]
    decide
  · simp only [strUnixTime, hv]
  · simp only [strUnixTime, hv]
    exact Unix_time_Unix n hrange.1 hrange.2
  · simp only [strUnixTime, hv, h0]
    intro h
    exact hext (congrArg Time.ext h)
  · simp only [strUnixTime, hv, h0, Time.Equal]
    simp [hext]

/-- C12 at "1": strUnixTime("1", 0, name) is the instant one second after
the epoch and differs from strUnixTime("0", 0, name). -/
theorem strUnixTime_sentinel_witness :
    int64Value "1" = some 1 ∧
    (strUnixTime "1" 0 "task.deleted").Unix = 1 ∧
    strUnixTime "1" 0 "task.deleted" ≠ strUnixTime "0" 0 "task.deleted" ∧
    strUnixTime "0" 0 "task.deleted" = noDate := by
  obtain ⟨h1, _, _, h4, h5, _⟩ :=
    strUnixTime_sentinel "1" "task.deleted" 1 (by decide) (by decide)
  exact ⟨by decide, h4, h5, h1⟩

/-- C13: parseBool is false exactly on the empty string and on "0", and
true on every other string, among them "false", "00" and " ". -/
theorem parseBool_spec :
    (∀ s : String, parseBool s = false ↔ (s = "" ∨ s = "0")) ∧
    (∀ s : String, s ≠ "" → s ≠ "0" → parseBool s = true) ∧
    parseBool "" = false ∧ parseBool "0" = false ∧
    parseBool "false" = true ∧ parseBool "00" = true ∧ parseBool " " = true := by
  refine ⟨?_, ?_, by decide, by decide, by decide, by decide, by decide⟩
  · intro s
    unfold parseBool
    by_cases h : s = "" ∨ s = "0"
    · simp [h]
    · simp [h]
  · intro s h1 h2
    unfold parseBool
    have : ¬ (s = "" ∨ s = "0") := by
      intro h
      rcases h with h | h
      · exact h1 h
      · exact h2 h
    simp [this]

/-- C16: the User, Tag and Task decoders are idempotent: for every receiver
and every data, decoding the data into the receiver and then once more into
the result gives the value and the error of decoding it once. -/
theorem UnmarshalJSON_idempotent :
    (∀ (user : User) (data : Option JSON),
      User.UnmarshalJSON (User.UnmarshalJSON user data).1 data = User.UnmarshalJSON user data) ∧
    (∀ (tag : Tag) (data : Option JSON),
      Tag.UnmarshalJSON (Tag.UnmarshalJSON tag data).1 data = Tag.UnmarshalJSON tag data) ∧
    (∀ (task : Task) (data : Option JSON),
      Task.UnmarshalJSON (Task.UnmarshalJSON task data).1 data
        = Task.UnmarshalJSON task data) := by
  refine ⟨?_, ?_, ?_⟩
  · intro user data
    cases h : unmarshalUserJSON data with
    | error err => simp only [User_UnmarshalJSON_error _ data err h]
    | ok res => simp only [User_UnmarshalJSON_ok _ data res h]
  · intro tag data
    cases h : unmarshalTagJSON data with
    | error err => simp only [Tag_UnmarshalJSON_error _ data err h]
    | ok res => simp only [Tag_UnmarshalJSON_ok _ data res h]
  · intro task data
    cases h : unmarshalTaskJSON data with
    | error err => simp only [Task_UnmarshalJSON_error _ data err h]
    | ok res =>
      simp only [Task_UnmarshalJSON_ok _ data res h]
      by_cases h1 : (parseYYYMMDD res.Startdate "task.startdate").2 = true <;>
        by_cases h2 : (parseYYYMMDD res.Duedate "task.duedate").2 = true <;>
        simp [h1, h2]

/-- C18, as the claim states it, fails: on a task object whose seq is a
number json.Unmarshal reports a type error, Task.UnmarshalJSON returns it
with each receiver untouched, and the two results disagree on Name. -/
theorem Task_UnmarshalJSON_frame_counterexample :
    fieldString taskWithNumberSeq "name" = "n" ∧
    (Task.UnmarshalJSON frameTaskA (some (.object taskWithNumberSeq))).2
      = some .UnmarshalTypeError ∧
    (Task.UnmarshalJSON frameTaskB (some (.object taskWithNumberSeq))).2
      = some .UnmarshalTypeError ∧
    (Task.UnmarshalJSON frameTaskA (some (.object taskWithNumberSeq))).1.Name ≠
      (Task.UnmarshalJSON frameTaskB (some (.object taskWithNumberSeq))).1.Name ∧
    (Task.UnmarshalJSON frameTaskA (some (.object taskWithNumberSeq))).1.Name = "old" ∧
    (Task.UnmarshalJSON frameTaskB (some (.object taskWithNumberSeq))).1.Name = "" := by
  decide

/-- C18 (amended): Task.UnmarshalJSON on a task object that decodes without
error (no member of a field holds a value other than a string or null)
overwrites every field of its receiver except Startdate and Duedate when
the raw string is empty or absent: the results of decoding the object into
two receivers agree on every other field, agree on Startdate (Duedate) when
the raw startdate (duedate) is non-empty, and otherwise each keeps the
Startdate (Duedate) of its receiver. -/
theorem Task_UnmarshalJSON_frame (t1 t2 : Task) (ms : List (String × JSON))
    (h : typeMismatch taskJSONTags ms = false) :
    (∀ sd dd : Time,
      { (Task.UnmarshalJSON t1 (some (.object ms))).1 with Startdate := sd, Duedate := dd } =
      { (Task.UnmarshalJSON t2 (some (.object ms))).1 with Startdate := sd, Duedate := dd }) ∧
    (fieldString ms "startdate" ≠ "" →
      (Task.UnmarshalJSON t1 (some (.object ms))).1.Startdate
        = (Task.UnmarshalJSON t2 (some (.object ms))).1.Startdate) ∧
    (fieldString ms "duedate" ≠ "" →
      (Task.UnmarshalJSON t1 (some (.object ms))).1.Duedate
        = (Task.UnmarshalJSON t2 (some (.object ms))).1.Duedate) ∧
    (fieldString ms "startdate" = "" →
      (Task.UnmarshalJSON t1 (some (.object ms))).1.Startdate = t1.Startdate ∧
      (Task.UnmarshalJSON t2 (some (.object ms))).1.Startdate = t2.Startdate) ∧
    (fieldString ms "duedate" = "" →
      (Task.UnmarshalJSON t1 (some (.object ms))).1.Duedate = t1.Duedate ∧
      (Task.UnmarshalJSON t2 (some (.object ms))).1.Duedate = t2.Duedate) := by
  rw [Task_UnmarshalJSON_ok t1 _ _ (unmarshalTaskJSON_object ms h),
    Task_UnmarshalJSON_ok t2 _ _ (unmarshalTaskJSON_object ms h)]
  refine ⟨fun _ _ => rfl, ?_, ?_, ?_, ?_⟩
  · intro h0
    have hf := parseYYYMMDD_found (fieldString ms "startdate") "task.startdate" h0
    simp [TaskJSON.ofMembers, hf]
  · intro h0
    have hf := parseYYYMMDD_found (fieldString ms "duedate") "task.duedate" h0
    simp [TaskJSON.ofMembers, hf]
  · intro h0
    simp [TaskJSON.ofMembers, h0, parseYYYMMDD_empty]
  · intro h0
    simp [TaskJSON.ofMembers, h0, parseYYYMMDD_empty]

/-- C18 at two receivers that differ in every date: decoding a task object
with a startdate and without a duedate makes the names and the start dates
agree and leaves each receiver its own due date. -/
theorem Task_UnmarshalJSON_frame_witness :
    (Task.UnmarshalJSON frameTaskA (some (.object taskWithStartdate))).1.Name
      = (Task.UnmarshalJSON frameTaskB (some (.object taskWithStartdate))).1.Name ∧
    (Task.UnmarshalJSON frameTaskA (some (.object taskWithStartdate))).1.Startdate
      = (Task.UnmarshalJSON frameTaskB (some (.object taskWithStartdate))).1.Startdate ∧
    (Task.UnmarshalJSON frameTaskA (some (.object taskWithStartdate))).1.Duedate
      = frameTaskA.Duedate ∧
    (Task.UnmarshalJSON frameTaskB (some (.object taskWithStartdate))).1.Duedate
      = frameTaskB.Duedate ∧
    frameTaskA.Duedate ≠ frameTaskB.Duedate := by
  have hm : typeMismatch taskJSONTags taskWithStartdate = false := by decide
  have hs : fieldString taskWithStartdate "startdate" ≠ "" := by decide
  have hd : fieldString taskWithStartdate "duedate" = "" := by decide
  obtain ⟨h1, h2, _, _, h5⟩ := Task_UnmarshalJSON_frame frameTaskA frameTaskB
    taskWithStartdate hm
  refine ⟨?_, h2 hs, (h5 hd).1, (h5 hd).2, by decide⟩
  have hn := congrArg Task.Name (h1 Time.zero Time.zero)
  exact hn

/-- C19: for a decimal numeral (optionally signed) whose value v lies
outside the int64 range, strconv.ParseInt reports a range error together
with the clamped boundary value (2^63 - 1 above the range, -2^63 below), and
strInt64 returns the default d, not that boundary value; hence on every
string strInt64 returns the default or the integer of the int64 range that
the string denotes. -/
theorem strInt64_out_of_range (val name : String) (d v : Int)
    (hv : decimalValue val = some v)
    (hout : v < -9223372036854775808 ∨ 9223372036854775808 ≤ v) :
    strInt64 val d name = d ∧
    (ParseInt val).2 = some .ErrRange ∧
    (9223372036854775808 ≤ v → (ParseInt val).1 = 9223372036854775807) ∧
    (v < -9223372036854775808 → (ParseInt val).1 = -9223372036854775808) ∧
    (∀ (val1 name1 : String) (d1 : Int), strInt64 val1 d1 name1 = d1 ∨
      ∃ v1 : Int, decimalValue val1 = some v1 ∧ -9223372036854775808 ≤ v1 ∧
        v1 < 9223372036854775808 ∧ strInt64 val1 d1 name1 = v1) := by
  have hall : ∀ (val1 name1 : String) (d1 : Int), strInt64 val1 d1 name1 = d1 ∨
      ∃ v1 : Int, decimalValue val1 = some v1 ∧ -9223372036854775808 ≤ v1 ∧
        v1 < 9223372036854775808 ∧ strInt64 val1 d1 name1 = v1 := by
    intro val1 name1 d1
    rw [strInt64_spec]
    cases hd : decimalValue val1 with
    | none => left; rfl
    | some v1 =>
      by_cases hr : -9223372036854775808 ≤ v1 ∧ v1 < 9223372036854775808
      · right
        exact ⟨v1, rfl, hr.1, hr.2, by simp [hr]⟩
      · left
        simp [hr]
  have hp := ParseInt_spec val
  rw [hv] at hp
  simp only [] at hp
  have hs : strInt64 val d name = d := by
    rw [strInt64_spec, hv]
    have : ¬ (-9223372036854775808 ≤ v ∧ v < 9223372036854775808) := by omega
    simp [this]
  by_cases h1 : v < -9223372036854775808
  · rw [if_pos h1] at hp
    refine ⟨hs, by rw [hp], ?_, fun _ => by rw [hp], hall⟩
    intro h2
    omega
  · rw [if_neg h1] at hp
    have h2 : 9223372036854775808 ≤ v := by omega
    rw [if_pos h2] at hp
    refine ⟨hs, by rw [hp], fun _ => by rw [hp], ?_, hall⟩
    intro h3
    exact absurd h3 h1

/-- C19 at "9223372036854775808" and "-9223372036854775809" with the
default 7: ParseInt clamps to the two boundaries, strInt64 returns 7. -/
theorem strInt64_out_of_range_witness :
    strInt64 "9223372036854775808" 7 "task.seq" = 7 ∧
    ParseInt "9223372036854775808" = (9223372036854775807, some .ErrRange) ∧
    strInt64 "-9223372036854775809" 7 "task.seq" = 7 ∧
    ParseInt "-9223372036854775809" = (-9223372036854775808, some .ErrRange) := by
  have h1 : decimalValue "9223372036854775808" = some 9223372036854775808 := by decide
  have h2 : decimalValue "-9223372036854775809" = some (-9223372036854775809) := by decide
  exact ⟨(strInt64_out_of_range "9223372036854775808" "task.seq" 7 _ h1
      (Or.inr (by norm_num))).1, by decide,
    (strInt64_out_of_range "-9223372036854775809" "task.seq" 7 _ h2
      (Or.inl (by norm_num))).1, by decide⟩

/-! ## The envelope decoder and the client -/

/-- C14: decoding an envelope that decodes without error preserves the
results sequence: with elems the array of its (last) results member, the
decoded Results has as many elements as elems, the element at index i is
the decoding of the i-th element of elems, and wherever that element is an
object whose (last) user member is an object, Results[i].User.ID is the id
string of that object. -/
theorem unmarshal_results_sequence (ms : List (String × JSON)) (resp : NirvanaResponse)
    (elems : List JSON)
    (h : unmarshalNirvanaResponse (some (.object ms)) = .ok resp)
    (hres : lastValue ms "results" = some (.array elems)) :
    resp.Results.length = elems.length ∧
    (∀ (i : Nat) (e : JSON), elems.get? i = some e →
      ∃ prior r, resp.Results.get? i = some r ∧ decodeAPIResult prior e = .ok r) ∧
    (∀ (i : Nat) (ems ums : List (String × JSON)), elems.get? i = some (.object ems) →
      lastValue ems "user" = some (.object ums) →
      ∃ r, resp.Results.get? i = some r ∧ r.User.ID = fieldString ums "id") := by
  simp only [unmarshalNirvanaResponse] at h
  obtain ⟨st, hst, hresp⟩ := except_map_ok _ _ _ h
  obtain ⟨store, store1, hdec⟩ := foldlM_storeEnvelopeMember_results ms _ st _ hst hres
  rw [hresp] at hdec
  have helems := decodeResults_array store elems _ _ hdec
  obtain ⟨hlen, hidx⟩ := decodeElems_spec store elems 0 _ helems
  refine ⟨hlen, ?_, ?_⟩
  · intro i e he
    obtain ⟨r, hr, hd⟩ := hidx i e he
    exact ⟨_, r, hr, hd⟩
  · intro i ems ums he hu
    obtain ⟨r, hr, hd⟩ := hidx i _ he
    refine ⟨r, hr, ?_⟩
    simp only [decodeAPIResult] at hd
    obtain ⟨prior, hp⟩ := foldlM_storeResultMember_user ems _ r _ hd hu
    exact User_UnmarshalJSON_object_ID prior r.User ums hp

/-- C14 at the envelope whose results are an auth record with the token
"abc123" followed by a user record with the id "42": two results, the
token in the first, the user in the second. -/
theorem unmarshal_results_sequence_witness :
    ∃ resp, unmarshalNirvanaResponse (some (.object authThenUser)) = .ok resp ∧
      resp.Results.length = 2 ∧
      (∃ r, resp.Results.get? 1 = some r ∧ r.User.ID = "42") ∧
      resp.AuthToken = .ok ("abc123", true) := by
  have hdec : unmarshalNirvanaResponse (some (.object authThenUser)) = .ok
      { Request := { RequestID := "r1" },
        Results := [{ APIResult.zero with Auth := { Token := "abc123" } },
                    { APIResult.zero with User := { ID := "42" } }] } := by
    decide
  obtain ⟨h1, _, h3⟩ := unmarshal_results_sequence authThenUser _ authThenUserResults hdec
    (by rfl)
  refine ⟨_, hdec, h1, ?_, by decide⟩
  obtain ⟨r, hr, hid⟩ := h3 1 [("user", .object [("id", .string "42")])] [("id", .string "42")]
    (by rfl) (by rfl)
  exact ⟨r, hr, by rw [hid]; decide⟩

/-- C15: when do has decoded the authentication response, Authenticate
returns nil exactly when the first result exists, its error code is not
positive and its auth token is non-empty, and the client's authToken is then
that non-empty token, the other fields of the client unchanged; and
whenever Authenticate returns an error, whatever the request, the transport
and the response were, the client is as before the call. -/
theorem Authenticate_spec (c : NirvanaClient) (login passwordMd5 : String)
    (httpDo : Except String HTTPResponse) (response : NirvanaResponse)
    (hdo : NirvanaClient.do_ httpDo = .returns (.ok response)) :
    (∃ c1 err, NirvanaClient.Authenticate c login passwordMd5 (.ok ()) httpDo
        = .returns (c1, err) ∧
      (err = none ↔ ∃ r rest, response.Results = r :: rest ∧ ¬ 0 < r.Error.Code ∧
        r.Auth.Token ≠ "") ∧
      (err = none → ∃ r rest, response.Results = r :: rest ∧
        c1 = { c with authToken := r.Auth.Token } ∧ c1.authToken ≠ "") ∧
      (err ≠ none → c1 = c)) ∧
    (∀ (newRequest : Except String Unit) (httpDo1 : Except String HTTPResponse)
      (c1 : NirvanaClient) (err : Failure),
      NirvanaClient.Authenticate c login passwordMd5 newRequest httpDo1
        = .returns (c1, some err) → c1 = c ∧ c1.authToken = c.authToken) := by
  constructor
  · rw [Authenticate_decoded c login passwordMd5 httpDo response hdo]
    rcases response with ⟨req, results⟩
    cases results with
    | nil =>
      refine ⟨c, _, rfl, ?_, ?_, fun _ => rfl⟩
      · simp
      · intro h; cases h
    | cons r rest =>
      by_cases h1 : 0 < r.Error.Code
      · refine ⟨c, some (.errorf
            ("Nirvana response error: " ++ fmtD r.Error.Code ++ " " ++ r.Error.Message)),
            by simp only [if_pos h1], ?_, ?_, fun _ => rfl⟩
        · simp [h1]
        · intro h; cases h
      · by_cases h2 : r.Auth.Token = ""
        · refine ⟨c, some (.errorf "Nirvan Client error: no authentification token"),
            by simp only [if_neg h1, h2, ne_eq, not_true_eq_false, if_false],
            ?_, ?_, fun _ => rfl⟩
          · simp [h2]
          · intro h; cases h
        · refine ⟨{ c with authToken := r.Auth.Token }, none,
            by simp only [if_neg h1, ne_eq, h2, not_false_eq_true, if_true], ?_, ?_, ?_⟩
          · simp only [true_iff]
            exact ⟨r, rest, rfl, h1, h2⟩
          · intro _
            exact ⟨r, rest, rfl, rfl, h2⟩
          · intro h; exact absurd rfl h
  · intro newRequest httpDo1 c1 err h
    have := Authenticate_error_keeps c login passwordMd5 newRequest httpDo1 c1 err h
    exact ⟨this, by rw [this]⟩

/-- C15 at a reply with status 200 whose first result carries the token
"abc123": Authenticate returns nil and the client holds the token; at a
reply with the service error 1401 and at a transport failure the client
keeps its empty token. -/
theorem Authenticate_spec_witness :
    NirvanaClient.Authenticate newClient "user" "md5" (.ok ()) (.ok tokenReply)
      = .returns ({ newClient with authToken := "abc123" }, none) ∧
    (∀ c1 err, NirvanaClient.Authenticate newClient "user" "md5" (.ok ())
      (.error "dial tcp: timeout") = .returns (c1, some err) → c1.authToken = "") := by
  have hdo : NirvanaClient.do_ (.ok tokenReply) = .returns (.ok
      { Request := APIRequest.zero,
        Results := [{ APIResult.zero with Auth := { Token := "abc123" } }] }) := by
    decide
  obtain ⟨⟨c1, err, h1, h2, h3, _⟩, h5⟩ :=
    Authenticate_spec newClient "user" "md5" (.ok tokenReply) _ hdo
  constructor
  · have herr : err = none := h2.2 ⟨_, _, rfl, by decide, by decide⟩
    obtain ⟨r, rest, hr, hc, _⟩ := h3 herr
    simp only [List.cons.injEq] at hr
    rw [h1, herr, hc, ← hr.1]
  · intro c2 e he
    exact (h5 _ _ c2 e he).2

/-- C17: for every integer status code s the test s/100 != 2 of do holds
exactly when s is outside 200..299, and do returns the error
"HTTP reponse error s", without reading or decoding the body, exactly when
s is outside 200..299; so it does for 20, 199, 300, 2000 and -250. -/
theorem do_status_check :
    (∀ s : Int, Int.tdiv s 100 ≠ 2 ↔ (s < 200 ∨ 299 < s)) ∧
    (∀ (s : Int) (body : Except String (Option JSON)),
      NirvanaClient.do_ (.ok { StatusCode := s, Body := body })
        = .returns (.error (.errorf ("HTTP reponse error " ++ fmtD s))) ↔
      (s < 200 ∨ 299 < s)) ∧
    (Int.tdiv 20 100 ≠ 2 ∧ Int.tdiv 199 100 ≠ 2 ∧ Int.tdiv 300 100 ≠ 2 ∧
      Int.tdiv 2000 100 ≠ 2 ∧ Int.tdiv (-250) 100 ≠ 2 ∧ Int.tdiv 200 100 = 2 ∧
      Int.tdiv 299 100 = 2) := by
  have h1 : ∀ s : Int, Int.tdiv s 100 ≠ 2 ↔ (s < 200 ∨ 299 < s) := by
    intro s
    rw [Ne, tdiv_hundred_eq_two]
    omega
  refine ⟨h1, ?_, by decide⟩
  intro s body
  constructor
  · intro h
    by_contra hn
    have h2 : ¬ Int.tdiv s 100 ≠ 2 := fun hc => hn ((h1 s).1 hc)
    unfold NirvanaClient.do_ at h
    simp only [if_neg h2] at h
    cases body with
    | error e => simp at h
    | ok b =>
      simp only [] at h
      cases hu : unmarshalNirvanaResponse b with
      | error err => rw [hu] at h; simp at h
      | ok v => rw [hu] at h; simp at h
  · intro h
    have h2 : Int.tdiv s 100 ≠ 2 := (h1 s).2 h
    unfold NirvanaClient.do_
    simp only [if_pos h2]

end Nirvana
